import Mathlib

/-!
Verification development for the n-clone media-catalog repository.

The Python sources under src/ are shallowly embedded: the SQLite-backed
catalog state becomes an explicit record of table contents, every public
operation of the catalog database manager (src/src/database.py) becomes a
pure function from state to status-and-state, and the validation layer
(src/src/models/base.py, src/src/utils.py) becomes pure functions on an
embedded Python-value type.  Strings are modelled as lists of Unicode
code points, matching Python str semantics for the ASCII data exercised
here.
-/

namespace NClone

/-- Python strings, modelled as their list of code points. -/
abbrev Str := List Char

/-- Code points of a Lean string literal, used to write concrete Python strings. -/
def str (s : String) : Str := s.data

/-- Python truthiness of the blank test in the validator:
a string passes iff it has at least one non-whitespace character
(so neither the empty string nor an all-whitespace string).
Whitespace is modelled by Char.isWhitespace, which covers the ASCII
whitespace appearing in this repository. -/
def hasNonWs (s : Str) : Bool := s.any (fun c => !c.isWhitespace)

/-- str.split() with no argument: maximal runs of non-whitespace characters. -/
def pySplitWs (s : Str) : List Str :=
  (s.splitOnP (fun c => c.isWhitespace)).filter (fun w => w ≠ [])

/-- The whitespace normalization " ".join(value.strip().split()) from
Base.validate_and_normalize_string (src/src/models/base.py). -/
def collapseWs (s : Str) : Str := List.intercalate [' '] (pySplitWs s)

/-- str.lower on one code point, for the ASCII range used by this repository. -/
def pyLowerChar (c : Char) : Char :=
  if 'A' ≤ c ∧ c ≤ 'Z' then Char.ofNat (c.toNat + 32) else c

/-- str.lower on a string. -/
def pyLower (s : Str) : Str := s.map pyLowerChar

/-- The root prefix kept by pathlib.PurePosixPath: no leading slash, exactly
two leading slashes, or any other positive number of leading slashes
(which normalize to a single slash). -/
def posixRoot (s : Str) : Str :=
  if s.take 2 = ['/', '/'] ∧ s.take 3 ≠ ['/', '/', '/'] then ['/', '/']
  else if s.take 1 = ['/'] then ['/']
  else []

/-- The path components kept by pathlib: split on the slash separator,
dropping empty components and single-dot components. -/
def posixComps (s : Str) : List Str :=
  (s.splitOn '/').filter (fun p => p ≠ [] ∧ p ≠ ['.'])

/-- pathlib.Path(s).as_posix() as used by the validator and by
update_path_of_doujinshi, modelled by PurePosixPath parsing: root prefix
plus slash-joined components, with the sole component-free path rendered
as a single dot. -/
def posixNormalize (s : Str) : Str :=
  let comps := posixComps s
  let root := posixRoot s
  if comps = [] then (if root = [] then ['.'] else root)
  else root ++ List.intercalate ['/'] comps

/-- Embedded Python values, for arguments whose type the source code
inspects at runtime (taxonomy names, record fields). -/
inductive PyVal where
  | str (s : Str)
  | int (n : Int)
  | bool (b : Bool)
  | bytes (bs : List Nat)
  | float (q : Int)
  | none
deriving DecidableEq, Repr

/-- Python exceptions distinguished by the embedded control flow. -/
inductive PyErr where
  | valueError
  | typeError
  | attributeError
  | operationalError
  | argumentError
deriving DecidableEq, Repr

/-- Base.validate_and_normalize_string (src/src/models/base.py, lines 15-41):
reject non-strings and blank or all-whitespace strings with a ValueError
(modelled as Option.none); otherwise strip, collapse internal whitespace
runs, lower-case when the field is a taxonomy name, and POSIX-normalize
when the field is a path. -/
def validate_and_normalize_string (key : Str) (value : PyVal) : Option Str :=
  match value with
  | .str v =>
    if ¬ hasNonWs v then Option.none
    else
      let normalized := collapseWs v
      let normalized := if key = str "name" then pyLower normalized else normalized
      let normalized := if key = str "path" then posixNormalize normalized else normalized
      some normalized
  | _ => Option.none

/-- DatabaseStatus (src/src/database_status.py): the closed outcome set,
in source declaration order. -/
inductive DatabaseStatus where
  | OK
  | INTEGRITY_ERROR
  | VALIDATION_FAILED
  | NOT_FOUND
  | ALREADY_EXISTS
  | EXCEPTION
deriving DecidableEq, Repr

/-- The is_fatal flag carried by each DatabaseStatus value. -/
def DatabaseStatus.is_fatal : DatabaseStatus → Bool
  | .EXCEPTION => true
  | _ => false

/-- A row of the doujinshi table (src/src/models/doujinshi.py).
The optional columns are nullable in the schema, but every value the
manager's insert path stores has passed the non-blank validator, so rows
are modelled with plain string fields. -/
structure DoujinshiRow where
  id : Int
  full_name : Str
  full_name_original : Str
  pretty_name : Str
  pretty_name_original : Str
  path : Str
  note : Str
deriving DecidableEq, Repr

/-- A row of the page table (src/src/models/page.py): composite key
(doujinshi_id, order_number), plus the filename. -/
structure PageRow where
  doujinshi_id : Int
  order_number : Int
  filename : Str
deriving DecidableEq, Repr

/-- A row of one of the six taxonomy tables.  The count field models the
count column, which the artist and circle tables declare
(src/src/models/artist.py, src/src/models/group.py) and which the
parody, character and tag tables do not (src/src/models/parody.py,
src/src/models/character.py, src/src/models/tag.py); see
Category.hasCount.  For the three tables without the column the field is
vacuous: no embedded operation ever reads or writes it, the operations
raise instead, exactly as the SQL does. -/
structure ItemRow where
  id : Int
  name : Str
  count : Int
deriving DecidableEq, Repr

/-- A row of one of the six membership join tables
(src/src/models/many_to_many_tables.py): composite primary key
(doujinshi_id, item_id). -/
structure LinkRow where
  doujinshi_id : Int
  item_id : Int
deriving DecidableEq, Repr

/-- The six taxonomy categories.  The Group entity is stored as the table
named circle. -/
inductive Category where
  | parody
  | character
  | tag
  | artist
  | circle
  | language
deriving DecidableEq, Repr

/-- Whether the category's table declares the count column.
artist (src/src/models/artist.py line 18) and circle
(src/src/models/group.py line 18) do; parody, character and tag do not
(their model files declare only id and name).
Modelled from the spec: the language model file (src/src/models/language.py,
imported by src/src/models/init) is not present in the given source; the
spec (section 3.3) gives every taxonomy entity the uniform
id/name/count pattern, so language is modelled with the count column. -/
def Category.hasCount : Category → Bool
  | .artist => true
  | .circle => true
  | .language => true
  | _ => false

/-- The category order in which insert_doujinshi, update_count_of_all and
get_doujinshi iterate (parodies, characters, tags, artists, groups,
languages in src/src/database.py). -/
def allCategories : List Category :=
  [.parody, .character, .tag, .artist, .circle, .language]

/-- The catalog database state: the contents of the doujinshi table, the
page table, the six taxonomy tables and the six membership join tables
of the schema (src/src/models). -/
structure DBState where
  doujinshi : List DoujinshiRow
  page : List PageRow
  parody : List ItemRow
  character : List ItemRow
  tag : List ItemRow
  artist : List ItemRow
  circle : List ItemRow
  language : List ItemRow
  doujinshi_parody : List LinkRow
  doujinshi_character : List LinkRow
  doujinshi_tag : List LinkRow
  doujinshi_artist : List LinkRow
  doujinshi_circle : List LinkRow
  doujinshi_language : List LinkRow
deriving DecidableEq, Repr

/-- The empty database, as created by the schema DDL before seeding. -/
def emptyDB : DBState :=
  ⟨[], [], [], [], [], [], [], [], [], [], [], [], [], []⟩

/-- The taxonomy table of a category. -/
def DBState.items (s : DBState) : Category → List ItemRow
  | .parody => s.parody
  | .character => s.character
  | .tag => s.tag
  | .artist => s.artist
  | .circle => s.circle
  | .language => s.language

/-- The membership join table of a category. -/
def DBState.links (s : DBState) : Category → List LinkRow
  | .parody => s.doujinshi_parody
  | .character => s.doujinshi_character
  | .tag => s.doujinshi_tag
  | .artist => s.doujinshi_artist
  | .circle => s.doujinshi_circle
  | .language => s.doujinshi_language

/-- Replace the taxonomy table of a category. -/
def DBState.setItems (s : DBState) (c : Category) (l : List ItemRow) : DBState :=
  match c with
  | .parody => { s with parody := l }
  | .character => { s with character := l }
  | .tag => { s with tag := l }
  | .artist => { s with artist := l }
  | .circle => { s with circle := l }
  | .language => { s with language := l }

/-- Replace the membership join table of a category. -/
def DBState.setLinks (s : DBState) (c : Category) (l : List LinkRow) : DBState :=
  match c with
  | .parody => { s with doujinshi_parody := l }
  | .character => { s with doujinshi_character := l }
  | .tag => { s with doujinshi_tag := l }
  | .artist => { s with doujinshi_artist := l }
  | .circle => { s with doujinshi_circle := l }
  | .language => { s with doujinshi_language := l }

/-- The scalar query select(Doujinshi.id).where(Doujinshi.id == did):
the matching id, or none. -/
def doujinshiIdScalar (s : DBState) (did : Int) : Option Int :=
  (s.doujinshi.find? (fun r => r.id == did)).map (fun r => r.id)

/-- Python truthiness of that scalar, as used by
if session.scalar(...) checks throughout src/src/database.py: the row is
seen only when its id is a truthy (nonzero) integer. -/
def doujinshiTruthy (s : DBState) (did : Int) : Bool :=
  match doujinshiIdScalar s did with
  | some v => v != 0
  | Option.none => false

/-- The scalar query select(model.id).where(model.name == name) followed by
the truthiness test if not model_id. -/
def itemIdTruthy (s : DBState) (c : Category) (name : Str) : Option Int :=
  match (s.items c).find? (fun it => it.name == name) with
  | some it => if it.id == 0 then Option.none else some it.id
  | Option.none => Option.none

/-- The next surrogate id SQLite assigns in a taxonomy table:
one more than the largest existing rowid. -/
def nextItemId (s : DBState) (c : Category) : Int :=
  ((s.items c).foldl (fun m it => max m it.id) 0) + 1

/-- DatabaseManager.how_many_doujinshi: SELECT count(*) FROM doujinshi. -/
def how_many_doujinshi (s : DBState) : Int :=
  s.doujinshi.length

/-- Lexicographic order on code-point lists: the BINARY collation SQLite
uses for ORDER BY name on the ASCII data of this repository. -/
def strLeb : Str → Str → Bool
  | [], _ => true
  | _ :: _, [] => false
  | a :: as, b :: bs => if a = b then strLeb as bs else decide (a < b)

/-- ORDER BY name ascending on taxonomy rows. -/
def sortItemsByName (l : List ItemRow) : List ItemRow :=
  List.insertionSort (fun x y => strLeb x.name y.name = true) l

/-- DatabaseManager._insert_item (src/src/database.py, lines 261-300).
The model constructor runs the name validator: a non-string or blank name
raises a ValueError that the generic handler converts to EXCEPTION.  A
normalized name colliding with a stored one violates the UNIQUE
constraint on name, reported as ALREADY_EXISTS.  Otherwise a row with the
normalized name and the count column default 0 is inserted. -/
def _insert_item (s : DBState) (c : Category) (name : PyVal) : DatabaseStatus × DBState :=
  match validate_and_normalize_string (str "name") name with
  | Option.none => (.EXCEPTION, s)
  | some nm =>
    if (s.items c).any (fun it => it.name == nm) then (.ALREADY_EXISTS, s)
    else (.OK, s.setItems c ((s.items c) ++ [⟨nextItemId s c, nm, 0⟩]))

/-- DatabaseManager.insert_parody. -/
def insert_parody (s : DBState) (name : PyVal) : DatabaseStatus × DBState :=
  _insert_item s .parody name
/-- DatabaseManager.insert_character. -/
def insert_character (s : DBState) (name : PyVal) : DatabaseStatus × DBState :=
  _insert_item s .character name
/-- DatabaseManager.insert_tag. -/
def insert_tag (s : DBState) (name : PyVal) : DatabaseStatus × DBState :=
  _insert_item s .tag name
/-- DatabaseManager.insert_artist. -/
def insert_artist (s : DBState) (name : PyVal) : DatabaseStatus × DBState :=
  _insert_item s .artist name
/-- DatabaseManager.insert_group: the Group entity lives in the circle table. -/
def insert_group (s : DBState) (name : PyVal) : DatabaseStatus × DBState :=
  _insert_item s .circle name
/-- DatabaseManager.insert_language. -/
def insert_language (s : DBState) (name : PyVal) : DatabaseStatus × DBState :=
  _insert_item s .language name

/-- DatabaseManager.create_database on a fresh file: create the tables,
indices and triggers (SQLite does not resolve the column names inside a
trigger body until the trigger first fires, so creating the
count-maintenance triggers succeeds even though the parody, character
and tag tables have no count column), then seed the four default
languages in priority order. -/
def create_database (s : DBState) : DatabaseStatus × DBState :=
  let s := (insert_language s (.str (str "english"))).2
  let s := (insert_language s (.str (str "japanese"))).2
  let s := (insert_language s (.str (str "chinese"))).2
  let s := (insert_language s (.str (str "textless"))).2
  (.OK, s)

/-- The schema-initialized empty catalog used by the tests
(tests/conftest.py builds it from an in-memory database). -/
def freshDB : DBState := (create_database emptyDB).2

/-- DatabaseManager._get_count_by_name (src/src/database.py, lines 833-872)
without an ambient session.  An empty name list short-circuits to an
empty dict; otherwise the statement select(model.name, model.count) is
built before the try block, so for the parody, character and tag models,
which have no count attribute, an AttributeError propagates to the
caller.  For the other categories the counts of the stored names are
returned ordered by name. -/
def _get_count_by_name (s : DBState) (c : Category) (names : List Str) :
    Except PyErr (List (Str × Int)) :=
  if names = [] then .ok []
  else if ¬ c.hasCount then .error .attributeError
  else .ok ((sortItemsByName ((s.items c).filter (fun it => names.contains it.name))).map
      (fun it => (it.name, it.count)))

/-- DatabaseManager.get_count_of_parodies. -/
def get_count_of_parodies (s : DBState) (names : List Str) : Except PyErr (List (Str × Int)) :=
  _get_count_by_name s .parody names
/-- DatabaseManager.get_count_of_artists. -/
def get_count_of_artists (s : DBState) (names : List Str) : Except PyErr (List (Str × Int)) :=
  _get_count_by_name s .artist names

/-- DatabaseManager.get_doujinshi (src/src/database.py, lines 895-969).
A missing id returns None before any taxonomy query runs.  For a stored
work the relationships loop begins with the parodies query
select(Parody.name, Parody.count), and the parody model has no count
attribute, so the call raises an AttributeError (the function has no
try/except). -/
def get_doujinshi (s : DBState) (did : Int) : Except PyErr (Option DoujinshiRow) :=
  match s.doujinshi.find? (fun r => r.id == did) with
  | Option.none => .ok Option.none
  | some _ => .error .attributeError

/-- ORDER BY doujinshi.id DESC. -/
def descRows (s : DBState) : List DoujinshiRow :=
  List.insertionSort (fun a b => b.id ≤ a.id) s.doujinshi

/-- ORDER BY doujinshi.id ASC. -/
def ascRows (s : DBState) : List DoujinshiRow :=
  List.insertionSort (fun a b => a.id ≤ b.id) s.doujinshi

/-- LIMIT lim OFFSET off on an ordered result: SQLite treats a negative
OFFSET as zero and a negative LIMIT as no limit. -/
def sqlSlice (xs : List DoujinshiRow) (lim off : Int) : List DoujinshiRow :=
  let dropped := xs.drop off.toNat
  if lim < 0 then dropped else dropped.take lim.toNat

/-- The scalar subquery for the cover: the filename of the page of this
work with order_number 1, or NULL. -/
def cover_filename_of (s : DBState) (did : Int) : Option Str :=
  (s.page.find? (fun p => p.doujinshi_id == did && p.order_number == 1)).map
    (fun p => p.filename)

/-- The scalar subquery select(min(doujinshi_language.language_id)) for
this work, or NULL when the work has no language membership. -/
def language_id_of (s : DBState) (did : Int) : Option Int :=
  (((s.links .language).filter (fun l => l.doujinshi_id == did)).map
    (fun l => l.item_id)).min?

/-- One entry of the paginated listing: id, full_name, path,
cover_filename and primary-language id. -/
structure PartialDoujinshi where
  id : Int
  full_name : Str
  path : Str
  cover_filename : Option Str
  language_id : Option Int
deriving DecidableEq, Repr

/-- The dict built for one row of the paginated listing. -/
def rowToPartial (s : DBState) (r : DoujinshiRow) : PartialDoujinshi :=
  ⟨r.id, r.full_name, r.path, cover_filename_of s r.id, language_id_of s r.id⟩

/-- math.ceil(a / b) on integers: for a positive divisor, the exact
ceiling of the quotient equals this floor-division form. -/
def ceilDivInt (a b : Int) : Int := (a + b - 1) / b

/-- DatabaseManager.get_doujinshi_in_page (src/src/database.py, lines
972-1090).  Page numbers below 1 return early.  Without a truthy total
count the (page_number - 1) * page_size offset is used against the
descending order.  With a truthy total count, a page in the back half of
the ordering is fetched from the ascending order with a tail offset and
the in-memory result is reversed. -/
def get_doujinshi_in_page (s : DBState) (page_size page_number : Int)
    (n_doujinshi : Option Int) : List PartialDoujinshi :=
  if page_number < 1 then []
  else
    let offset0 := (page_number - 1) * page_size
    let limit0 := page_size
    let truthyN : Bool := match n_doujinshi with
      | some v => v != 0
      | Option.none => false
    let cfg : Bool × Int × Int :=
      if truthyN then
        let N := n_doujinshi.getD 0
        let max_page_number := ceilDivInt N page_size
        let last_page_size := if N % page_size = 0 then page_size else N % page_size
        if page_number > ceilDivInt max_page_number 2 then
          if page_number = max_page_number then
            (false, last_page_size, (max_page_number - page_number) * page_size)
          else
            (false, limit0, last_page_size + (max_page_number - page_number - 1) * page_size)
        else (true, limit0, offset0)
      else (true, limit0, offset0)
    let d_id_desc_order := cfg.1
    let base := if d_id_desc_order then descRows s else ascRows s
    let sliced := sqlSlice base cfg.2.1 cfg.2.2
    let rows := if d_id_desc_order then sliced else sliced.reverse
    rows.map (rowToPartial s)

/-- str.strip(): drop whitespace from both ends. -/
def pyStrip (s : Str) : Str :=
  (((s.dropWhile Char.isWhitespace).reverse).dropWhile Char.isWhitespace).reverse

/-- is_non_empty_str (src/src/utils.py, lines 12-17). -/
def is_non_empty_str (v : PyVal) : Bool :=
  match v with
  | .str s => hasNonWs s
  | _ => false

/-- VALID_LANGUAGES (src/src/utils.py, line 5). -/
def VALID_LANGUAGES : List Str :=
  [str "english", str "japanese", str "textless", str "chinese"]

/-- A full work-record submission, the dict handed to
DatabaseManager.insert_doujinshi.  Scalar fields carry embedded Python
values because validation inspects their runtime type; the list fields
are string lists as produced by every caller in the repository.  All
keys are present (validate_doujinshi indexes the dict directly, so an
absent key would raise before validation reports anything; no claim
exercises that path). -/
structure DoujinshiInput where
  id : PyVal
  full_name : PyVal
  full_name_original : PyVal
  pretty_name : PyVal
  pretty_name_original : PyVal
  path : PyVal
  note : PyVal
  parodies : List Str
  characters : List Str
  tags : List Str
  artists : List Str
  groups : List Str
  languages : List Str
  pages : List Str
deriving DecidableEq, Repr

/-- Whether validate_doujinshi (src/src/utils.py, lines 20-131) collects at
least one blocking error for this record: a non-integer or boolean id, a
blank full_name or path, duplicate entries in any list field, or a
taxonomy list that is not in lower-case form. -/
def validationErrors (d : DoujinshiInput) : Bool :=
  (match d.id with
    | .int _ => false
    | _ => true)
  || !(is_non_empty_str d.full_name)
  || [d.parodies, d.characters, d.tags, d.artists, d.groups, d.languages, d.pages].any
      (fun l => decide (¬ l.Nodup))
  || [d.parodies, d.characters, d.tags, d.artists, d.groups, d.languages].any
      (fun l => decide (l ≠ l.map pyLower))
  || !(is_non_empty_str d.path)

/-- The warning test for one optional scalar field. -/
def scalarFieldWarn (v : PyVal) : Bool :=
  match v with
  | .str s => s.isEmpty || decide (s ≠ pyStrip s)
  | _ => true

/-- The warning tests for one list field. -/
def listFieldWarn (l : List Str) : Bool :=
  l.isEmpty || l.any (fun v => decide (v ≠ pyStrip v))

/-- Whether validate_doujinshi collects at least one non-blocking warning:
an empty or untrimmed optional field, a non-POSIX path, the tag
textless, or an unknown language name. -/
def validationWarnings (d : DoujinshiInput) : Bool :=
  [d.pretty_name, d.full_name_original, d.pretty_name_original, d.path].any scalarFieldWarn
  || [d.parodies, d.characters, d.tags, d.artists, d.groups, d.languages, d.pages].any
      listFieldWarn
  || (match d.path with
      | .str s => hasNonWs s && decide (s ≠ posixNormalize s)
      | _ => false)
  || (!d.tags.isEmpty && d.tags.contains (str "textless"))
  || (!d.languages.isEmpty
      && d.languages.any (fun l => !(VALID_LANGUAGES.contains (pyStrip l))))

/-- validate_doujinshi (src/src/utils.py, lines 20-131).  Errors always
block.  With only warnings the record passes silently unless
user_prompt is set, in which case the operator's exact-Y-or-n console
answer (modelled by promptAnswer) decides. -/
def validate_doujinshi (d : DoujinshiInput) (user_prompt promptAnswer : Bool) : Bool :=
  if validationErrors d then false
  else if !(validationWarnings d) then true
  else if !user_prompt then true
  else promptAnswer

/-- DatabaseManager._add_and_link_item (src/src/database.py, lines
323-377) for one category: resolve which submitted names already exist,
construct the missing ones, and produce the membership rows to flush.
Constructing a missing item runs the name validator (ValueError on a
blank name) and passes count=0 to the model constructor, which raises a
TypeError for the parody, character and tag models because they have no
count attribute.  The source computes the missing names as a Python set
difference (item_names - existing_models.keys()), whose iteration order
is hash-dependent; the embedding fixes first-occurrence order, and no
observable result of the manager depends on the choice because taxonomy
reads sort by name. -/
def _add_and_link_item (s : DBState) (c : Category) (did : Int) (item_names : List Str) :
    Except PyErr (List ItemRow × List LinkRow) :=
  if item_names = [] then .ok ([], [])
  else
    let missing := (item_names.filter
      (fun n => !((s.items c).any (fun it => it.name == n)))).eraseDups
    if missing.any (fun n => !(hasNonWs n)) then .error .valueError
    else if !c.hasCount && !missing.isEmpty then .error .typeError
    else
      let base := nextItemId s c
      let newItems := missing.enum.map
        (fun p => (⟨base + (p.1 : Int), pyLower (collapseWs p.2), 0⟩ : ItemRow))
      let resolve : Str → Int := fun n =>
        match (s.items c).find? (fun it => it.name == n) with
        | some it => it.id
        | Option.none => base + (missing.indexOf n : Int)
      .ok (newItems, item_names.map (fun n => (⟨did, resolve n⟩ : LinkRow)))

/-- The six _add_and_link_item calls of insert_doujinshi, in source order. -/
def addAllRelations (s : DBState) (did : Int) (d : DoujinshiInput) :
    Except PyErr (List (Category × List ItemRow × List LinkRow)) := do
  let p ← _add_and_link_item s .parody did d.parodies
  let ch ← _add_and_link_item s .character did d.characters
  let t ← _add_and_link_item s .tag did d.tags
  let a ← _add_and_link_item s .artist did d.artists
  let g ← _add_and_link_item s .circle did d.groups
  let l ← _add_and_link_item s .language did d.languages
  .ok [(.parody, p), (.character, ch), (.tag, t), (.artist, a), (.circle, g), (.language, l)]

/-- The stored value SQLite keeps for the submitted id: integers as
themselves and booleans as 0 or 1 (reachable only with validation
disabled).  Other Python values cannot bind to the integer primary key;
that driver-level failure is modelled coarsely as a raised exception,
and no claim depends on it. -/
def idAsStored (v : PyVal) : Option Int :=
  match v with
  | .int n => some n
  | .bool b => some (if b then 1 else 0)
  | _ => Option.none

/-- The Doujinshi model constructor of insert_doujinshi: every scalar
field passes through the shared validator at assignment time. -/
def buildDoujinshiRow (idv : Int) (d : DoujinshiInput) : Option DoujinshiRow := do
  let fn ← validate_and_normalize_string (str "full_name") d.full_name
  let fno ← validate_and_normalize_string (str "full_name_original") d.full_name_original
  let pn ← validate_and_normalize_string (str "pretty_name") d.pretty_name
  let pno ← validate_and_normalize_string (str "pretty_name_original") d.pretty_name_original
  let nt ← validate_and_normalize_string (str "note") d.note
  let pa ← validate_and_normalize_string (str "path") d.path
  some ⟨idv, fn, fno, pn, pno, pa, nt⟩

/-- UNIQUE violations on taxonomy names at flush time: a freshly created
item whose normalized name collides with a stored row or with another
fresh row of the same table. -/
def itemNameViolation (s : DBState) (cats : List (Category × List ItemRow × List LinkRow)) :
    Bool :=
  cats.any (fun e =>
    decide (¬ (e.2.1.map ItemRow.name).Nodup)
    || e.2.1.any (fun it => (s.items e.1).any (fun old => old.name == it.name)))

/-- The membership-row flush, category by category in source order.  The
first successful insert into a join table of a category without the
count column fires the increment trigger, which aborts with a missing
column error (EXCEPTION); a duplicate membership pair violates the
composite primary key (INTEGRITY_ERROR). -/
def linkPhase : List (Category × List ItemRow × List LinkRow) → Option DatabaseStatus
  | [] => Option.none
  | (c, _, links) :: rest =>
    if !links.isEmpty && !c.hasCount then some .EXCEPTION
    else if decide (¬ links.Nodup) then some .INTEGRITY_ERROR
    else linkPhase rest

/-- enumerate(pages, start=1): the page rows inserted for a work. -/
def pagesToInsert (did : Int) : Int → List Str → List PageRow
  | _, [] => []
  | i, f :: fs => ⟨did, i, f⟩ :: pagesToInsert did (i + 1) fs

/-- The committed state of a successful insert_doujinshi.  Each inserted
membership row fires the increment trigger of its category; on this
success path the categories without the count column have no membership
rows to insert (linkPhase reports EXCEPTION otherwise). -/
def applyInsert (s : DBState) (row : DoujinshiRow)
    (cats : List (Category × List ItemRow × List LinkRow)) (pages : List Str) : DBState :=
  let s0 := { s with doujinshi := s.doujinshi ++ [row],
                     page := s.page ++ pagesToInsert row.id 1 pages }
  cats.foldl (fun st e =>
    let st := st.setItems e.1 ((st.items e.1) ++ e.2.1)
    let st := st.setLinks e.1 ((st.links e.1) ++ e.2.2)
    if e.1.hasCount then
      st.setItems e.1 ((st.items e.1).map (fun it =>
        { it with count := it.count + (e.2.2.countP (fun l => l.item_id == it.id) : Int) }))
    else st) s0

/-- DatabaseManager.insert_doujinshi (src/src/database.py, lines 380-470):
optional validation, duplicate-identity check (by the truthiness of the
selected id), scalar normalization, taxonomy resolution and linking,
page insertion, then the one-transaction commit.  Every failure path
leaves the catalog unchanged: the session exits without committing, so
SQLite rolls the unit of work back.  promptAnswer models the console
reply consumed when validation warnings are shown interactively. -/
def insert_doujinshi (s : DBState) (d : DoujinshiInput)
    (user_prompt promptAnswer : Bool) (disable_validation : Bool) :
    DatabaseStatus × DBState :=
  if !disable_validation && !(validate_doujinshi d user_prompt promptAnswer) then
    (.VALIDATION_FAILED, s)
  else
    match idAsStored d.id with
    | Option.none => (.EXCEPTION, s)
    | some idv =>
      if doujinshiTruthy s idv then (.ALREADY_EXISTS, s)
      else
        match buildDoujinshiRow idv d with
        | Option.none => (.EXCEPTION, s)
        | some row =>
          match addAllRelations s idv d with
          | .error _ => (.EXCEPTION, s)
          | .ok cats =>
            if s.doujinshi.any (fun r => r.id == row.id)
                || s.doujinshi.any (fun r => r.path == row.path) then
              (.INTEGRITY_ERROR, s)
            else if itemNameViolation s cats then (.INTEGRITY_ERROR, s)
            else
              match linkPhase cats with
              | some st => (st, s)
              | Option.none =>
                if decide (¬ d.pages.Nodup) || d.pages.contains [] then
                  (.INTEGRITY_ERROR, s)
                else (.OK, applyInsert s row cats d.pages)

/-- DatabaseManager._set_pages_to_doujinshi (src/src/database.py, lines
543-602): delete every page of the work, then, unless the new list is
None or empty, insert the new filenames in order starting at position 1.
A duplicate filename or a blank filename violates the page constraints
and rolls the whole operation back. -/
def _set_pages_to_doujinshi (s : DBState) (did : Int) (pages : Option (List Str)) :
    DatabaseStatus × DBState :=
  if !(doujinshiTruthy s did) then (.NOT_FOUND, s)
  else
    let kept := s.page.filter (fun p => p.doujinshi_id != did)
    match pages with
    | Option.none => (.OK, { s with page := kept })
    | some ps =>
      if ps.isEmpty then (.OK, { s with page := kept })
      else if decide (¬ ps.Nodup) || ps.contains [] then (.INTEGRITY_ERROR, s)
      else (.OK, { s with page := kept ++ pagesToInsert did 1 ps })

/-- DatabaseManager.add_pages_to_doujinshi. -/
def add_pages_to_doujinshi (s : DBState) (did : Int) (pages : Option (List Str)) :
    DatabaseStatus × DBState :=
  _set_pages_to_doujinshi s did pages

/-- DatabaseManager.remove_all_pages_from_doujinshi. -/
def remove_all_pages_from_doujinshi (s : DBState) (did : Int) : DatabaseStatus × DBState :=
  _set_pages_to_doujinshi s did Option.none

/-- DatabaseManager._add_item_to_doujinshi (src/src/database.py, lines
473-540): the named item and the work must already exist; a duplicate
membership violates the composite primary key (ALREADY_EXISTS); a
successful insert fires the increment trigger, which aborts with a
missing column error for the categories without the count column. -/
def _add_item_to_doujinshi (s : DBState) (c : Category) (did : Int) (name : Str) :
    DatabaseStatus × DBState :=
  match itemIdTruthy s c name with
  | Option.none => (.NOT_FOUND, s)
  | some iid =>
    if !(doujinshiTruthy s did) then (.NOT_FOUND, s)
    else if (s.links c).any (fun l => l.doujinshi_id == did && l.item_id == iid) then
      (.ALREADY_EXISTS, s)
    else if !c.hasCount then (.EXCEPTION, s)
    else
      (.OK, (s.setLinks c ((s.links c) ++ [⟨did, iid⟩])).setItems c
        ((s.items c).map (fun it =>
          if it.id == iid then { it with count := it.count + 1 } else it)))

/-- DatabaseManager.add_parody_to_doujinshi. -/
def add_parody_to_doujinshi (s : DBState) (did : Int) (name : Str) :
    DatabaseStatus × DBState :=
  _add_item_to_doujinshi s .parody did name
/-- DatabaseManager.add_artist_to_doujinshi. -/
def add_artist_to_doujinshi (s : DBState) (did : Int) (name : Str) :
    DatabaseStatus × DBState :=
  _add_item_to_doujinshi s .artist did name
/-- DatabaseManager.add_language_to_doujinshi. -/
def add_language_to_doujinshi (s : DBState) (did : Int) (name : Str) :
    DatabaseStatus × DBState :=
  _add_item_to_doujinshi s .language did name

/-- DatabaseManager._remove_item_from_doujinshi (src/src/database.py,
lines 628-692): item, work and membership must all exist; the delete
fires the decrement trigger, which aborts for the categories without
the count column. -/
def _remove_item_from_doujinshi (s : DBState) (c : Category) (did : Int) (name : Str) :
    DatabaseStatus × DBState :=
  match itemIdTruthy s c name with
  | Option.none => (.NOT_FOUND, s)
  | some iid =>
    if !(doujinshiTruthy s did) then (.NOT_FOUND, s)
    else if !((s.links c).any (fun l => l.doujinshi_id == did && l.item_id == iid)) then
      (.NOT_FOUND, s)
    else if !c.hasCount then (.EXCEPTION, s)
    else
      (.OK, (s.setLinks c ((s.links c).filter
          (fun l => !(l.doujinshi_id == did && l.item_id == iid)))).setItems c
        ((s.items c).map (fun it =>
          if it.id == iid then { it with count := it.count - 1 } else it)))

/-- DatabaseManager.remove_parody_from_doujinshi. -/
def remove_parody_from_doujinshi (s : DBState) (did : Int) (name : Str) :
    DatabaseStatus × DBState :=
  _remove_item_from_doujinshi s .parody did name
/-- DatabaseManager.remove_artist_from_doujinshi. -/
def remove_artist_from_doujinshi (s : DBState) (did : Int) (name : Str) :
    DatabaseStatus × DBState :=
  _remove_item_from_doujinshi s .artist did name

/-- The cascade of DELETE FROM doujinshi WHERE id = did with
foreign_keys ON: the page rows and all membership rows of the work are
deleted, and each cascaded join-table delete fires the decrement
trigger of its category. -/
def removeCascade (s : DBState) (did : Int) : DBState :=
  let s1 := { s with doujinshi := s.doujinshi.filter (fun r => r.id != did),
                     page := s.page.filter (fun p => p.doujinshi_id != did) }
  allCategories.foldl (fun st c =>
    let gone := (st.links c).filter (fun l => l.doujinshi_id == did)
    let st := st.setLinks c ((st.links c).filter (fun l => l.doujinshi_id != did))
    if c.hasCount then
      st.setItems c ((st.items c).map (fun it =>
        { it with count := it.count - (gone.countP (fun l => l.item_id == it.id) : Int) }))
    else st) s1

/-- DatabaseManager.remove_doujinshi (src/src/database.py, lines 718-752):
not-found by the truthiness of the selected id; otherwise one DELETE
whose cascades remove pages and memberships.  A cascaded delete from a
join table of a category without the count column fires a decrement
trigger that aborts with a missing column error, so the whole delete
rolls back (EXCEPTION). -/
def remove_doujinshi (s : DBState) (did : Int) : DatabaseStatus × DBState :=
  if !(doujinshiTruthy s did) then (.NOT_FOUND, s)
  else if allCategories.any
      (fun c => !c.hasCount && (s.links c).any (fun l => l.doujinshi_id == did)) then
    (.EXCEPTION, s)
  else (.OK, removeCascade s did)

/-- DatabaseManager._update_count (src/src/database.py, lines 1198-1225):
zero every count, then set it to the number of membership rows grouped
by item.  For a model without the count attribute, building
update(model).values with the count key raises before anything
executes. -/
def _update_count (s : DBState) (c : Category) : Except PyErr DBState :=
  if !c.hasCount then .error .argumentError
  else .ok (s.setItems c ((s.items c).map (fun it =>
    ⟨it.id, it.name, ((s.links c).countP (fun l => l.item_id == it.id) : Int)⟩)))

/-- DatabaseManager._update_count_by_item_type without an ambient session:
commit on success, EXCEPTION and rollback on any raise. -/
def _update_count_by_item_type (s : DBState) (c : Category) : DatabaseStatus × DBState :=
  match _update_count s c with
  | .ok s2 => (.OK, s2)
  | .error _ => (.EXCEPTION, s)

/-- DatabaseManager.update_count_of_parody. -/
def update_count_of_parody (s : DBState) : DatabaseStatus × DBState :=
  _update_count_by_item_type s .parody
/-- DatabaseManager.update_count_of_artist. -/
def update_count_of_artist (s : DBState) : DatabaseStatus × DBState :=
  _update_count_by_item_type s .artist

/-- DatabaseManager.update_count_of_all (src/src/database.py, lines
1284-1309): one session recomputing every category in source order,
committed only after all six succeed. -/
def update_count_of_all (s : DBState) : DatabaseStatus × DBState :=
  match allCategories.foldlM (fun st c => _update_count st c) s with
  | .ok s2 => (.OK, s2)
  | .error _ => (.EXCEPTION, s)

/-- The record returned by the viewer's lookup helper.
Modelled from the spec: db.db_util.get_doujinshi is not part of the
given source; only its call contract is known (section 4.8), namely
that it exposes at least the full and bold name pairs used by the
preview route.  A missing or None name is modelled as the empty string,
which the route treats identically (both are falsy). -/
structure ViewerRecord where
  full_name : Str
  bold_name : Str
  full_name_original : Str
  bold_name_original : Str
deriving DecidableEq, Repr

/-- str.find: the least index at which the needle occurs in the haystack,
or None in place of the -1 sentinel. -/
def py_str_find (hay needle : Str) : Option Nat :=
  match hay with
  | [] => if needle = [] then some 0 else Option.none
  | c :: t =>
    if needle.isPrefixOf (c :: t) then some 0
    else (py_str_find t needle).map (fun i => i + 1)

/-- The name-split fields computed by render_doujinshi_preview.  The
route's initialization writes the misspelled keys ater and
ater_original; the located branch creates the after keys, so in the
fallback branches they stay absent (modelled as none, which the
template renders as empty text). -/
structure PreviewFields where
  before : Str
  pretty : Str
  ater : Str
  after : Option Str
  before_original : Str
  pretty_original : Str
  ater_original : Str
  after_original : Option Str
deriving DecidableEq, Repr

/-- The split logic render_doujinshi_preview repeats for both name
pairs: a falsy bold name leaves before and after untouched and falls
back to the whole full name; otherwise str.find locates the bold name
and the full name is cut around the match, with -1 falling back the
same way.  The absent after key of the fallback branches is the none
value. -/
def nameSplit (full bold : Str) : Str × Str × Option Str :=
  if bold = [] then ([], full, Option.none)
  else
    match py_str_find full bold with
    | some i => (full.take i, bold, some (full.drop (i + bold.length)))
    | Option.none => ([], full, Option.none)

/-- render_doujinshi_preview (src/main.py, lines 28-71): the split is
computed for the main name pair always, and for the original pair only
when the original full name is truthy (otherwise those fields keep
their initial empty values).  The misspelled ater keys from the
route's initialization stay empty. -/
def render_doujinshi_preview (d : ViewerRecord) : PreviewFields :=
  let m := nameSplit d.full_name d.bold_name
  let o :=
    if d.full_name_original = [] then (([] : Str), ([] : Str), (Option.none : Option Str))
    else nameSplit d.full_name_original d.bold_name_original
  ⟨m.1, m.2.1, [], m.2.2, o.1, o.2.1, [], o.2.2⟩

/-- What the preview template shows for the after part: the value when
the key exists, empty text when it does not. -/
def renderedAfter (r : PreviewFields) : Str := r.after.getD []

/-- The rendered after part of the original pair. -/
def renderedAfterOriginal (r : PreviewFields) : Str := r.after_original.getD []

/-- The ordered page filenames of a work as the manager reads them back:
SELECT page.filename WHERE page.doujinshi_id = did ORDER BY
page.order_number ASC (used by get_doujinshi and get_doujinshi_in_range,
src/src/database.py lines 936-940 and 1161-1168). -/
def pagesOf (s : DBState) (did : Int) : List Str :=
  (List.insertionSort (fun a b => a.order_number ≤ b.order_number)
    (s.page.filter (fun p => p.doujinshi_id == did))).map (fun p => p.filename)

/-- A work row with the given id and path and fixed filler text, used by
the concrete evaluation states below. -/
def wRow (i : Int) (p : Str) : DoujinshiRow :=
  ⟨i, str "w", str "o", str "p", str "q", p, str "n"⟩

/-- A concrete catalog of three works on the seeded schema. -/
def sThree : DBState :=
  { freshDB with doujinshi := [wRow 1 (str "a"), wRow 2 (str "b"), wRow 3 (str "c")] }

/-- A concrete catalog holding exactly one work. -/
def sOne : DBState := { emptyDB with doujinshi := [wRow 1 (str "a")] }

/-- A concrete catalog with one work owning one page named a. -/
def sOnePage : DBState :=
  { emptyDB with doujinshi := [wRow 1 (str "a")], page := [⟨1, 1, str "a"⟩] }

/-- A concrete catalog in which work 1 has a parody membership (the shape
the benchmark harness's direct bulk inserts produce, and the shape every
catalog claim about parody links presupposes). -/
def sParodyLinked : DBState :=
  { emptyDB with doujinshi := [wRow 1 (str "a")],
                 parody := [⟨1, str "x", 0⟩],
                 doujinshi_parody := [⟨1, 1⟩] }

/-- The 30 page filenames f_1.jpg through f_30.jpg of the round-trip
property. -/
def c1Pages : List Str :=
  (List.range 30).map (fun i => str ("f_" ++ toString (i + 1) ++ ".jpg"))

/-- The round-trip record: id 1, full_name Test Doujinshi, path
inter/path, the three parodies and the 30 pages, with the remaining
fields filled like the test suite's sample work. -/
def c1Record : DoujinshiInput :=
  { id := .int 1,
    full_name := .str (str "Test Doujinshi"),
    pretty_name := .str (str "st Dou"),
    full_name_original := .str (str "元の名前"),
    pretty_name_original := .str (str "の名"),
    path := .str (str "inter/path"),
    note := .str (str "Test note"),
    parodies := [str "parody_1", str "parody_2", str "parody_3"],
    characters := [],
    tags := [],
    artists := [str "artist_1"],
    groups := [str "group_1"],
    languages := [str "english"],
    pages := c1Pages }

/-- A structurally invalid submission: duplicate page filenames. -/
def dupPagesRecord : DoujinshiInput := { c1Record with pages := [str "a", str "a"] }

/-- The concatenation of all pages of the catalog, requested with the
total-count optimization enabled: pages 1 through ceil(N / k) of size
k, each fetched with the stored work count supplied. -/
def paginationConcat (s : DBState) (k : Int) : List PartialDoujinshi :=
  ((List.range ((ceilDivInt (how_many_doujinshi s) k).toNat)).map
    (fun (i : Nat) => get_doujinshi_in_page s k ((i : Int) + 1)
      (some (how_many_doujinshi s)))).flatten

instance : IsTotal DoujinshiRow (fun a b => b.id ≤ a.id) :=
  ⟨fun a b => le_total b.id a.id⟩

instance : IsTrans DoujinshiRow (fun a b => b.id ≤ a.id) :=
  ⟨fun _ _ _ h1 h2 => le_trans h2 h1⟩

instance : IsTotal DoujinshiRow (fun a b => a.id ≤ b.id) :=
  ⟨fun a b => le_total a.id b.id⟩

instance : IsTrans DoujinshiRow (fun a b => a.id ≤ b.id) :=
  ⟨fun _ _ _ => le_trans⟩

instance : IsAntisymm DoujinshiRow (fun a b => a.id < b.id) :=
  ⟨fun _ _ h1 h2 => absurd (lt_trans h1 h2) (lt_irrefl _)⟩

/-! ## Theorems -/

theorem descRows_perm (s : DBState) : (descRows s).Perm s.doujinshi :=
  List.perm_insertionSort _ _

theorem ascRows_perm (s : DBState) : (ascRows s).Perm s.doujinshi :=
  List.perm_insertionSort _ _

theorem descRows_length (s : DBState) : (descRows s).length = s.doujinshi.length :=
  (descRows_perm s).length_eq

/-- On a catalog whose ids are distinct (the primary-key invariant), the
descending listing is strictly descending. -/
theorem descRows_strict (s : DBState)
    (hnd : (s.doujinshi.map DoujinshiRow.id).Nodup) :
    (descRows s).Pairwise (fun a b => b.id < a.id) := by
  have hs : (descRows s).Pairwise (fun a b => b.id ≤ a.id) :=
    List.sorted_insertionSort _ _
  have hmapperm : ((descRows s).map DoujinshiRow.id).Perm
      (s.doujinshi.map DoujinshiRow.id) := (descRows_perm s).map _
  have hnd2 : ((descRows s).map DoujinshiRow.id).Nodup :=
    (hmapperm.nodup_iff).mpr hnd
  have hpne : (descRows s).Pairwise (fun a b => a.id ≠ b.id) :=
    List.pairwise_map.mp hnd2
  exact (hs.and hpne).imp (fun h => lt_of_le_of_ne h.1 (fun he => h.2 he.symm))

/-- On distinct ids the ascending listing is strictly ascending. -/
theorem ascRows_strict (s : DBState)
    (hnd : (s.doujinshi.map DoujinshiRow.id).Nodup) :
    (ascRows s).Pairwise (fun a b => a.id < b.id) := by
  have hs : (ascRows s).Pairwise (fun a b => a.id ≤ b.id) :=
    List.sorted_insertionSort _ _
  have hmapperm : ((ascRows s).map DoujinshiRow.id).Perm
      (s.doujinshi.map DoujinshiRow.id) := (ascRows_perm s).map _
  have hnd2 : ((ascRows s).map DoujinshiRow.id).Nodup :=
    (hmapperm.nodup_iff).mpr hnd
  have hpne : (ascRows s).Pairwise (fun a b => a.id ≠ b.id) :=
    List.pairwise_map.mp hnd2
  exact (hs.and hpne).imp (fun h => lt_of_le_of_ne h.1 h.2)

/-- On distinct ids the ascending query returns exactly the reverse of
the descending query. -/
theorem ascRows_eq_reverse (s : DBState)
    (hnd : (s.doujinshi.map DoujinshiRow.id).Nodup) :
    ascRows s = (descRows s).reverse := by
  have hp : (ascRows s).Perm ((descRows s).reverse) :=
    ((ascRows_perm s).trans (descRows_perm s).symm).trans
      (List.reverse_perm (descRows s)).symm
  have hs1 : (ascRows s).Sorted (fun a b => a.id < b.id) := ascRows_strict s hnd
  have hs2 : ((descRows s).reverse).Sorted (fun a b => a.id < b.id) :=
    List.pairwise_reverse.mpr (descRows_strict s hnd)
  exact List.eq_of_perm_of_sorted hp hs1 hs2

/-- Slicing from the tail of the reversed list and re-reversing equals
slicing from the front. -/
theorem rev_slice_eq {α : Type _} (D : List α) (off lim : Nat)
    (h : off + lim ≤ D.length) :
    ((D.reverse.drop (D.length - off - lim)).take lim).reverse
      = (D.drop off).take lim := by
  rw [List.drop_reverse]
  have h1 : D.length - (D.length - off - lim) = off + lim := by omega
  rw [h1, List.take_reverse]
  have h2 : (D.take (off + lim)).length = off + lim := by
    rw [List.length_take]
    omega
  rw [h2]
  have h3 : off + lim - lim = off := by omega
  rw [h3, List.reverse_reverse, List.take_drop]

/-- Concatenating the ceil(length / k) successive k-sized slices of a
list rebuilds the list. -/
theorem join_chunks {α : Type _} (k : Nat) (hk : 1 ≤ k) :
    ∀ (D : List α),
      ((List.range ((D.length + k - 1) / k)).map
        (fun i => (D.drop (i * k)).take k)).flatten = D
  | [] => by
    have h0 : (([] : List α).length + k - 1) / k = 0 :=
      Nat.div_eq_of_lt (by simp; omega)
    simp [h0]
  | c :: t => by
    have hM : ((c :: t).length + k - 1) / k = ((c :: t).length - 1) / k + 1 := by
      have h1 : (c :: t).length + k - 1 = ((c :: t).length - 1) + 1 * k := by
        simp only [List.length_cons]
        omega
      rw [h1, Nat.add_mul_div_right _ _ (by omega : 0 < k)]
    rw [hM, List.range_succ_eq_map, List.map_cons, List.flatten_cons, List.map_map]
    have htail :
        List.map ((fun i => ((c :: t).drop (i * k)).take k) ∘ (fun i => i + 1))
            (List.range (((c :: t).length - 1) / k))
          = List.map (fun i => (((c :: t).drop k).drop (i * k)).take k)
            (List.range (((c :: t).length - 1) / k)) := by
      apply List.map_congr_left
      intro i _
      simp only [Function.comp]
      rw [List.drop_drop]
      have harg : (i + 1) * k = i * k + k := by
        rw [Nat.succ_mul]
      rw [harg, Nat.add_comm (i * k) k]
    rw [htail]
    have hrec := join_chunks k hk ((c :: t).drop k)
    have hm : (((c :: t).drop k).length + k - 1) / k = ((c :: t).length - 1) / k := by
      rw [List.length_drop]
      rcases le_or_lt (c :: t).length k with hle | hlt2
      · have h0 : (c :: t).length - k = 0 := by omega
        rw [h0]
        have hz : (0 + k - 1) / k = 0 := Nat.div_eq_of_lt (by omega)
        rw [hz]
        exact (Nat.div_eq_of_lt (by simp only [List.length_cons] at hle ⊢; omega)).symm
      · have h1 : (c :: t).length - k + k - 1 = (c :: t).length - 1 := by omega
        rw [h1]
    rw [hm] at hrec
    rw [hrec]
    rw [Nat.zero_mul, List.drop_zero, List.take_append_drop]
termination_by D => D.length
decreasing_by
  simp only [List.length_drop, List.length_cons]
  omega

/-- Without a truthy total count, a valid page number always slices the
descending order from the front. -/
theorem get_page_none_eq (s : DBState) (k p : Int) (hp : 1 ≤ p) :
    get_doujinshi_in_page s k p Option.none
      = (sqlSlice (descRows s) k ((p - 1) * k)).map (rowToPartial s) := by
  unfold get_doujinshi_in_page
  rw [if_neg (by omega : ¬ p < 1)]
  rfl

/-- With a truthy total count, a page in the front half still slices the
descending order from the front. -/
theorem get_page_some_firsthalf (s : DBState) (k p N : Int) (hp : 1 ≤ p) (hN : N ≠ 0)
    (hc : ¬ p > ceilDivInt (ceilDivInt N k) 2) :
    get_doujinshi_in_page s k p (some N)
      = (sqlSlice (descRows s) k ((p - 1) * k)).map (rowToPartial s) := by
  unfold get_doujinshi_in_page
  rw [if_neg (by omega : ¬ p < 1)]
  have hb : (N != 0) = true := by simpa using hN
  simp only [hb, Option.getD_some, if_true, if_neg hc]

/-- With a truthy total count, the last page slices the ascending order
from its start with the last page size as limit and reverses. -/
theorem get_page_some_last (s : DBState) (k p N : Int) (hp : 1 ≤ p) (hN : N ≠ 0)
    (hc : p > ceilDivInt (ceilDivInt N k) 2) (hc2 : p = ceilDivInt N k) :
    get_doujinshi_in_page s k p (some N)
      = ((sqlSlice (ascRows s) (if N % k = 0 then k else N % k)
          ((ceilDivInt N k - p) * k)).reverse).map (rowToPartial s) := by
  unfold get_doujinshi_in_page
  rw [if_neg (by omega : ¬ p < 1)]
  have hb : (N != 0) = true := by simpa using hN
  simp only [hb, Option.getD_some, if_true, if_pos hc, if_pos hc2,
    Bool.false_eq_true, if_false]

/-- With a truthy total count, a back-half page before the last slices
the ascending order from a tail offset and reverses. -/
theorem get_page_some_mid (s : DBState) (k p N : Int) (hp : 1 ≤ p) (hN : N ≠ 0)
    (hc : p > ceilDivInt (ceilDivInt N k) 2) (hc2 : p ≠ ceilDivInt N k) :
    get_doujinshi_in_page s k p (some N)
      = ((sqlSlice (ascRows s) k
          ((if N % k = 0 then k else N % k) + (ceilDivInt N k - p - 1) * k)).reverse).map
          (rowToPartial s) := by
  unfold get_doujinshi_in_page
  rw [if_neg (by omega : ¬ p < 1)]
  have hb : (N != 0) = true := by simpa using hN
  simp only [hb, Option.getD_some, if_true, if_pos hc, if_neg hc2,
    Bool.false_eq_true, if_false]

/-- The page geometry: the last page size plus the full pages before it
cover the table exactly. -/
theorem lastPage_arith (n kn : Nat) (hkn : 1 ≤ kn) (hn : 1 ≤ n) :
    ((n + kn - 1) / kn - 1) * kn + (if n % kn = 0 then kn else n % kn) = n := by
  have hdm := Nat.div_add_mod n kn
  have hrlt : n % kn < kn := Nat.mod_lt n (by omega)
  by_cases hr : n % kn = 0
  · have hq1 : 1 ≤ n / kn := by
      rcases Nat.eq_zero_or_pos (n / kn) with h0 | h1
      · rw [h0] at hdm
        omega
      · exact h1
    have hnum : n + kn - 1 = (kn - 1) + (n / kn) * kn := by
      have : kn * (n / kn) = (n / kn) * kn := Nat.mul_comm _ _
      omega
    have hcn : (n + kn - 1) / kn = n / kn := by
      rw [hnum, Nat.add_mul_div_right _ _ (by omega : 0 < kn),
        Nat.div_eq_of_lt (by omega : kn - 1 < kn), Nat.zero_add]
    rw [hcn, if_pos hr]
    have hsub : (n / kn - 1) * kn = (n / kn) * kn - kn := by
      rw [Nat.sub_mul, Nat.one_mul]
    have hge : kn ≤ (n / kn) * kn := by
      calc kn = 1 * kn := (Nat.one_mul kn).symm
        _ ≤ (n / kn) * kn := Nat.mul_le_mul_right kn hq1
    have hmulc : kn * (n / kn) = (n / kn) * kn := Nat.mul_comm _ _
    omega
  · have hnum : n + kn - 1 = (n % kn - 1) + (n / kn + 1) * kn := by
      have h1 : (n / kn + 1) * kn = (n / kn) * kn + kn := by
        rw [Nat.succ_mul]
      have hmulc : kn * (n / kn) = (n / kn) * kn := Nat.mul_comm _ _
      omega
    have hcn : (n + kn - 1) / kn = n / kn + 1 := by
      rw [hnum, Nat.add_mul_div_right _ _ (by omega : 0 < kn),
        Nat.div_eq_of_lt (by omega : n % kn - 1 < kn), Nat.zero_add]
    rw [hcn, if_neg hr]
    simp only [Nat.add_sub_cancel]
    have hmulc : kn * (n / kn) = (n / kn) * kn := Nat.mul_comm _ _
    omega

/-- The pagination optimization is observationally equivalent to the
unoptimized path on every valid page of every catalog with distinct
ids. -/
theorem page_equiv (s : DBState) (k p : Int) (hk : 1 ≤ k)
    (hnd : (s.doujinshi.map DoujinshiRow.id).Nodup)
    (hp1 : 1 ≤ p) (hpM : p ≤ ceilDivInt (how_many_doujinshi s) k) :
    get_doujinshi_in_page s k p (some (how_many_doujinshi s))
      = get_doujinshi_in_page s k p Option.none := by
  have hn1 : 1 ≤ s.doujinshi.length := by
    by_contra h0
    have hlen0 : s.doujinshi.length = 0 := by omega
    have hM0 : ceilDivInt (how_many_doujinshi s) k = 0 := by
      show ((s.doujinshi.length : Int) + k - 1) / k = 0
      rw [hlen0]
      push_cast
      rw [zero_add]
      exact Int.ediv_eq_zero_of_lt (by omega) (by omega)
    omega
  obtain ⟨kn, rfl⟩ : ∃ kn : Nat, k = (kn : Int) :=
    ⟨k.toNat, (Int.toNat_of_nonneg (by omega)).symm⟩
  obtain ⟨pn, rfl⟩ : ∃ pn : Nat, p = (pn : Int) :=
    ⟨p.toNat, (Int.toNat_of_nonneg (by omega)).symm⟩
  have hkn : 1 ≤ kn := by exact_mod_cast hk
  have hpn : 1 ≤ pn := by exact_mod_cast hp1
  set n := s.doujinshi.length with hndef
  have hNe : how_many_doujinshi s = ((n : Nat) : Int) := rfl
  have hnz : ((n : Nat) : Int) ≠ 0 := by
    have : (1 : Int) ≤ ((n : Nat) : Int) := by exact_mod_cast hn1
    omega
  have hM : ceilDivInt ((n : Nat) : Int) ((kn : Nat) : Int)
      = (((n + kn - 1) / kn : Nat) : Int) := by
    show (((n : Nat) : Int) + ((kn : Nat) : Int) - 1) / ((kn : Nat) : Int) = _
    have h1 : (((n : Nat) : Int) + ((kn : Nat) : Int) - 1)
        = ((n + kn - 1 : Nat) : Int) := by omega
    rw [h1]
    exact (Int.ofNat_ediv (n + kn - 1) kn).symm
  set mn := (n + kn - 1) / kn with hmndef
  have hpmn : pn ≤ mn := by
    rw [hNe, hM] at hpM
    exact_mod_cast hpM
  have hMhalf : ceilDivInt ((mn : Nat) : Int) 2 = (((mn + 1) / 2 : Nat) : Int) := by
    show (((mn : Nat) : Int) + 2 - 1) / 2 = _
    have h1 : (((mn : Nat) : Int) + 2 - 1) = ((mn + 1 : Nat) : Int) := by push_cast; ring
    rw [h1]
    exact_mod_cast (Int.ofNat_ediv (mn + 1) 2).symm
  set ln := (if n % kn = 0 then kn else n % kn) with hlndef
  have hmodlt : n % kn < kn := Nat.mod_lt n (by omega)
  have hln1 : 1 ≤ ln := by rw [hlndef]; split <;> omega
  have hlnk : ln ≤ kn := by rw [hlndef]; split <;> omega
  have harith : (mn - 1) * kn + ln = n := by
    rw [hmndef, hlndef]
    exact lastPage_arith n kn hkn hn1
  have hLcast : (if ((n : Nat) : Int) % ((kn : Nat) : Int) = 0 then ((kn : Nat) : Int)
      else ((n : Nat) : Int) % ((kn : Nat) : Int)) = ((ln : Nat) : Int) := by
    have he : ((n : Nat) : Int) % ((kn : Nat) : Int) = ((n % kn : Nat) : Int) :=
      (Int.ofNat_emod n kn).symm
    rw [he, hlndef]
    by_cases h0 : n % kn = 0
    · rw [if_pos (by exact_mod_cast h0), if_pos h0]
    · rw [if_neg (by exact_mod_cast h0), if_neg h0]
  have hlen : (descRows s).length = n := descRows_length s
  by_cases hhalf : pn > (mn + 1) / 2
  · have hc : ((pn : Nat) : Int)
        > ceilDivInt (ceilDivInt ((n : Nat) : Int) ((kn : Nat) : Int)) 2 := by
      rw [hM, hMhalf]
      exact_mod_cast hhalf
    by_cases hlast : pn = mn
    · have hceq : ((pn : Nat) : Int) = ceilDivInt ((n : Nat) : Int) ((kn : Nat) : Int) := by
        rw [hM]
        exact_mod_cast hlast
      rw [hNe, get_page_some_last s _ _ _ (by exact_mod_cast hp1) hnz hc hceq,
        get_page_none_eq s _ _ (by exact_mod_cast hp1),
        hM, hLcast, ascRows_eq_reverse s hnd]
      have hidx : (pn - 1) * kn = (mn - 1) * kn := by rw [hlast]
      have hoffz : (((mn : Nat) : Int) - ((pn : Nat) : Int)) * ((kn : Nat) : Int) = 0 := by
        rw [hlast]
        ring
      congr 1
      rw [hoffz]
      have hcast1 : ((((pn : Nat) : Int) - 1) * ((kn : Nat) : Int))
          = (((pn - 1) * kn : Nat) : Int) := by
        push_cast [Nat.cast_sub hpn]
        ring
      unfold sqlSlice
      rw [if_neg (by omega : ¬ ((ln : Nat) : Int) < 0),
        if_neg (by omega : ¬ ((kn : Nat) : Int) < 0), hcast1]
      simp only [Int.toNat_zero, Int.toNat_ofNat, List.drop_zero]
      have hdlen : ((descRows s).drop ((pn - 1) * kn)).length = ln := by
        rw [List.length_drop, hlen, hidx]
        omega
      have h0eq : (descRows s).reverse.take ln
          = ((descRows s).reverse.drop
              ((descRows s).length - (pn - 1) * kn - ln)).take ln := by
        have hz : (descRows s).length - (pn - 1) * kn - ln = 0 := by
          rw [hlen, hidx]
          omega
        rw [hz, List.drop_zero]
      rw [h0eq, rev_slice_eq (descRows s) ((pn - 1) * kn) ln (by rw [hlen, hidx]; omega)]
      rw [List.take_of_length_le (le_of_eq hdlen),
        List.take_of_length_le (by rw [hdlen]; exact hlnk)]
    · have hplt : pn < mn := lt_of_le_of_ne hpmn hlast
      have hcne : ((pn : Nat) : Int) ≠ ceilDivInt ((n : Nat) : Int) ((kn : Nat) : Int) := by
        rw [hM]
        exact_mod_cast hlast
      rw [hNe, get_page_some_mid s _ _ _ (by exact_mod_cast hp1) hnz hc hcne,
        get_page_none_eq s _ _ (by exact_mod_cast hp1),
        hM, hLcast, ascRows_eq_reverse s hnd]
      congr 1
      have hprod : (mn - pn - 1) * kn = (mn - 1) * kn - pn * kn := by
        rw [show mn - pn - 1 = (mn - 1) - pn from by omega, Nat.sub_mul]
      have hle2 : pn * kn ≤ (mn - 1) * kn := Nat.mul_le_mul_right kn (by omega)
      have hoff : ln + (mn - pn - 1) * kn = n - pn * kn := by omega
      have hsucc : (pn - 1) * kn + kn = pn * kn := by
        cases pn with
        | zero => omega
        | succ m => rw [Nat.succ_sub_one, Nat.succ_mul]
      have hpkn : pn * kn ≤ n := by omega
      have hcast1 : (((ln : Nat) : Int)
          + (((mn : Nat) : Int) - ((pn : Nat) : Int) - 1) * ((kn : Nat) : Int))
          = ((ln + (mn - pn - 1) * kn : Nat) : Int) := by
        push_cast [Nat.cast_sub (by omega : 1 ≤ mn - pn),
          Nat.cast_sub (by omega : pn ≤ mn)]
        ring
      have hcast2 : ((((pn : Nat) : Int) - 1) * ((kn : Nat) : Int))
          = (((pn - 1) * kn : Nat) : Int) := by
        push_cast [Nat.cast_sub hpn]
        ring
      unfold sqlSlice
      have hknneg : ¬ ((kn : Nat) : Int) < 0 := by omega
      simp only [if_neg hknneg]
      rw [hcast1, hcast2]
      simp only [Int.toNat_ofNat]
      have h0eq : (descRows s).reverse.drop (ln + (mn - pn - 1) * kn)
          = (descRows s).reverse.drop ((descRows s).length - (pn - 1) * kn - kn) := by
        congr 1
        rw [hlen]
        omega
      rw [h0eq, rev_slice_eq (descRows s) ((pn - 1) * kn) kn (by rw [hlen]; omega)]
  · have hcneg : ¬ ((pn : Nat) : Int)
        > ceilDivInt (ceilDivInt ((n : Nat) : Int) ((kn : Nat) : Int)) 2 := by
      rw [hM, hMhalf]
      exact_mod_cast hhalf
    rw [hNe, get_page_some_firsthalf s _ _ _ (by exact_mod_cast hp1) hnz hcneg,
      get_page_none_eq s _ _ (by exact_mod_cast hp1)]

/-- Concatenating all pages fetched with the total-count optimization
rebuilds the full descending listing. -/
theorem paginationConcat_eq (s : DBState) (k : Int) (hk : 1 ≤ k)
    (hnd : (s.doujinshi.map DoujinshiRow.id).Nodup) :
    paginationConcat s k = (descRows s).map (rowToPartial s) := by
  obtain ⟨kn, rfl⟩ : ∃ kn : Nat, k = (kn : Int) :=
    ⟨k.toNat, (Int.toNat_of_nonneg (by omega)).symm⟩
  have hkn : 1 ≤ kn := by exact_mod_cast hk
  have hM : ceilDivInt (how_many_doujinshi s) ((kn : Nat) : Int)
      = (((s.doujinshi.length + kn - 1) / kn : Nat) : Int) := by
    show ((s.doujinshi.length : Int) + ((kn : Nat) : Int) - 1) / ((kn : Nat) : Int) = _
    have h1 : ((s.doujinshi.length : Int) + ((kn : Nat) : Int) - 1)
        = ((s.doujinshi.length + kn - 1 : Nat) : Int) := by omega
    rw [h1]
    exact (Int.ofNat_ediv (s.doujinshi.length + kn - 1) kn).symm
  unfold paginationConcat
  rw [hM]
  simp only [Int.toNat_ofNat]
  have hpages : (List.range ((s.doujinshi.length + kn - 1) / kn)).map
        (fun (i : Nat) => get_doujinshi_in_page s ((kn : Nat) : Int) ((i : Int) + 1)
          (some (how_many_doujinshi s)))
      = (List.range ((s.doujinshi.length + kn - 1) / kn)).map
        (fun i => List.map (rowToPartial s) (((descRows s).drop (i * kn)).take kn)) := by
    apply List.map_congr_left
    intro i hi
    have himem : i < (s.doujinshi.length + kn - 1) / kn := List.mem_range.mp hi
    have hp1 : (1 : Int) ≤ (i : Int) + 1 := by omega
    have hpM : (i : Int) + 1 ≤ ceilDivInt (how_many_doujinshi s) ((kn : Nat) : Int) := by
      rw [hM]
      exact_mod_cast Nat.succ_le_of_lt himem
    rw [page_equiv s ((kn : Nat) : Int) ((i : Int) + 1) hk hnd hp1 hpM,
      get_page_none_eq s ((kn : Nat) : Int) ((i : Int) + 1) hp1]
    congr 1
    unfold sqlSlice
    rw [if_neg (by omega : ¬ ((kn : Nat) : Int) < 0)]
    have hoffc : ((i : Int) + 1 - 1) * ((kn : Nat) : Int) = ((i * kn : Nat) : Int) := by
      push_cast
      ring
    rw [hoffc]
    simp only [Int.toNat_ofNat]
  rw [hpages]
  have hcomp : (List.range ((s.doujinshi.length + kn - 1) / kn)).map
        (fun i => List.map (rowToPartial s) (((descRows s).drop (i * kn)).take kn))
      = List.map (List.map (rowToPartial s))
          ((List.range ((s.doujinshi.length + kn - 1) / kn)).map
            (fun i => ((descRows s).drop (i * kn)).take kn)) := by
    rw [List.map_map]
    rfl
  rw [hcomp, ← List.map_flatten]
  have hjc := join_chunks kn hkn (descRows s)
  rw [descRows_length s] at hjc
  rw [hjc]

/-! ### Character-level facts for the validator -/

theorem char_toNat_ofNat (n : Nat) (h : n < 55296) : (Char.ofNat n).toNat = n := by
  unfold Char.ofNat
  rw [dif_pos (Or.inl h)]
  rfl

theorem char_le_iff (a b : Char) : a ≤ b ↔ a.toNat ≤ b.toNat :=
  ⟨fun h => h, fun h => h⟩

theorem char_eq_iff (a b : Char) : a = b ↔ a.toNat = b.toNat :=
  ⟨fun h => by rw [h], fun h => Char.eq_of_val_eq (UInt32.toNat.inj h)⟩

theorem not_ws_of_bounds (c : Char) (h1 : 65 ≤ c.toNat) (h2 : c.toNat ≤ 122) :
    c.isWhitespace = false := by
  have e1 : ¬ (c = ' ') := fun he => by
    rw [char_eq_iff] at he
    have hv : (' ' : Char).toNat = 32 := by decide
    omega
  have e2 : ¬ (c = '\t') := fun he => by
    rw [char_eq_iff] at he
    have hv : ('\t' : Char).toNat = 9 := by decide
    omega
  have e3 : ¬ (c = '\r') := fun he => by
    rw [char_eq_iff] at he
    have hv : ('\r' : Char).toNat = 13 := by decide
    omega
  have e4 : ¬ (c = '\n') := fun he => by
    rw [char_eq_iff] at he
    have hv : ('\n' : Char).toNat = 10 := by decide
    omega
  unfold Char.isWhitespace
  rw [decide_eq_false e1, decide_eq_false e2, decide_eq_false e3, decide_eq_false e4]
  rfl

theorem not_upper_of_lower (c : Char) (h : 97 ≤ c.toNat) :
    ¬ ('A' ≤ c ∧ c ≤ 'Z') := fun hc => by
  have hz : ('Z' : Char).toNat = 90 := by decide
  have := (char_le_iff c 'Z').mp hc.2
  omega

theorem pyLowerChar_eq_self (c : Char) (h : ¬ ('A' ≤ c ∧ c ≤ 'Z')) :
    pyLowerChar c = c := by
  unfold pyLowerChar
  exact if_neg h

theorem pyLowerChar_toNat_shift (c : Char) (h : 'A' ≤ c ∧ c ≤ 'Z') :
    (pyLowerChar c).toNat = c.toNat + 32 := by
  unfold pyLowerChar
  rw [if_pos h]
  have hz : ('Z' : Char).toNat = 90 := by decide
  have hle : c.toNat ≤ 90 := hz ▸ (char_le_iff c 'Z').mp h.2
  exact char_toNat_ofNat (c.toNat + 32) (by omega)

theorem upper_bounds_of_upper (c : Char) (h : 'A' ≤ c ∧ c ≤ 'Z') :
    65 ≤ c.toNat ∧ c.toNat ≤ 90 := by
  have ha : ('A' : Char).toNat = 65 := by decide
  have hz : ('Z' : Char).toNat = 90 := by decide
  exact ⟨ha ▸ (char_le_iff 'A' c).mp h.1, hz ▸ (char_le_iff c 'Z').mp h.2⟩

theorem pyLowerChar_idem (c : Char) : pyLowerChar (pyLowerChar c) = pyLowerChar c := by
  by_cases h : 'A' ≤ c ∧ c ≤ 'Z'
  · have hs := pyLowerChar_toNat_shift c h
    have hb := upper_bounds_of_upper c h
    exact pyLowerChar_eq_self _ (not_upper_of_lower _ (by omega))
  · rw [pyLowerChar_eq_self c h, pyLowerChar_eq_self c h]

theorem pyLowerChar_ws (c : Char) : (pyLowerChar c).isWhitespace = c.isWhitespace := by
  by_cases h : 'A' ≤ c ∧ c ≤ 'Z'
  · have hs := pyLowerChar_toNat_shift c h
    have hb := upper_bounds_of_upper c h
    rw [not_ws_of_bounds _ (by omega) (by omega), not_ws_of_bounds c (by omega) (by omega)]
  · rw [pyLowerChar_eq_self c h]

/-! ### Generic facts about splitting and joining lists -/

theorem splitOnP_pieces {α : Type} (p : α → Bool) :
    ∀ (s : List α), ∀ w ∈ s.splitOnP p, ∀ c ∈ w, p c = false := by
  intro s
  induction s with
  | nil =>
    intro w hw c hc
    rw [List.splitOnP_nil] at hw
    rw [List.mem_singleton] at hw
    subst hw
    exact absurd hc (List.not_mem_nil c)
  | cons a xs ih =>
    intro w hw c hc
    rw [List.splitOnP_cons] at hw
    by_cases hpa : p a
    · rw [if_pos hpa] at hw
      rcases List.mem_cons.mp hw with h1 | h2
      · subst h1
        exact absurd hc (List.not_mem_nil c)
      · exact ih w h2 c hc
    · rw [if_neg hpa] at hw
      rcases hsp : xs.splitOnP p with _ | ⟨hd, tl⟩
      · exact absurd hsp (List.splitOnP_ne_nil p xs)
      · rw [hsp, List.modifyHead_cons] at hw
        rcases List.mem_cons.mp hw with h1 | h2
        · subst h1
          rcases List.mem_cons.mp hc with hc1 | hc2
          · subst hc1
            exact Bool.not_eq_true _ ▸ hpa
          · exact ih hd (by rw [hsp]; exact List.mem_cons_self hd tl) c hc2
        · exact ih w (by rw [hsp]; exact List.mem_cons.mpr (Or.inr h2)) c hc

theorem splitOnP_intercalate_pieces {α : Type} (p : α → Bool) (sep : α)
    (hsep : p sep = true) :
    ∀ ws : List (List α), ws ≠ [] → (∀ w ∈ ws, ∀ c ∈ w, p c = false) →
      (List.intercalate [sep] ws).splitOnP p = ws := by
  intro ws
  induction ws with
  | nil => intro h _; exact absurd rfl h
  | cons w rest ih =>
    intro _ hw
    cases rest with
    | nil =>
      have hone : List.intercalate [sep] [w] = w := by
        simp [List.intercalate]
      rw [hone]
      exact List.splitOnP_eq_single p w
        (fun c hc => by rw [hw w (List.mem_singleton.mpr rfl) c hc]; exact Bool.false_ne_true)
    | cons w2 t =>
      have hstep : List.intercalate [sep] (w :: w2 :: t)
          = w ++ sep :: List.intercalate [sep] (w2 :: t) := by
        simp [List.intercalate, List.intersperse_cons_cons]
      rw [hstep, List.splitOnP_first p w
        (fun c hc => by rw [hw w (List.mem_cons_self w _) c hc]; exact Bool.false_ne_true)
        sep hsep]
      rw [ih (List.cons_ne_nil w2 t)
        (fun u hu c hc => hw u (List.mem_cons.mpr (Or.inr hu)) c hc)]

theorem splitOnP_map {α : Type} (p : α → Bool) (f : α → α) (hf : ∀ c, p (f c) = p c) :
    ∀ s : List α, (s.map f).splitOnP p = (s.splitOnP p).map (List.map f) := by
  intro s
  induction s with
  | nil => simp
  | cons a xs ih =>
    rw [List.map_cons, List.splitOnP_cons, List.splitOnP_cons, hf a]
    by_cases hpa : p a
    · rw [if_pos hpa, if_pos hpa, ih, List.map_cons]
      rfl
    · rw [if_neg hpa, if_neg hpa, ih]
      rcases hsp : xs.splitOnP p with _ | ⟨hd, tl⟩
      · exact absurd hsp (List.splitOnP_ne_nil p xs)
      · simp [List.modifyHead_cons]

theorem map_intersperse_gen {γ δ : Type} (g : γ → δ) (sep : γ) :
    ∀ l : List γ, (l.intersperse sep).map g = (l.map g).intersperse (g sep) := by
  intro l
  induction l with
  | nil => rfl
  | cons x t ih =>
    cases t with
    | nil => rfl
    | cons y t2 =>
      simp only [List.map_cons, List.intersperse_cons₂, ih]

theorem map_intercalate {α β : Type} (f : α → β) (sep : List α) (ls : List (List α)) :
    List.map f (List.intercalate sep ls)
      = List.intercalate (sep.map f) (ls.map (List.map f)) := by
  rw [List.intercalate, List.intercalate, List.map_flatten, map_intersperse_gen]

/-! ### The whitespace-collapse normal form -/

theorem pySplitWs_words (s : Str) :
    ∀ w ∈ pySplitWs s, w ≠ [] ∧ ∀ c ∈ w, c.isWhitespace = false := by
  intro w hw
  have h1 := List.of_mem_filter hw
  have h2 := List.mem_of_mem_filter hw
  exact ⟨by simpa using h1, fun c hc => splitOnP_pieces _ s w h2 c hc⟩

theorem pySplitWs_collapseWs (s : Str) : pySplitWs (collapseWs s) = pySplitWs s := by
  rcases hws : pySplitWs s with _ | ⟨w, rest⟩
  · unfold collapseWs
    rw [hws]
    rfl
  · unfold collapseWs
    rw [hws]
    show ((List.intercalate [' '] (w :: rest)).splitOnP (fun c => c.isWhitespace)).filter
      (fun u => u ≠ []) = w :: rest
    rw [splitOnP_intercalate_pieces (fun c => c.isWhitespace) ' ' (by decide) (w :: rest)
      (List.cons_ne_nil w rest)
      (fun u hu c hc => (pySplitWs_words s u (hws ▸ hu)).2 c hc)]
    exact List.filter_eq_self.mpr
      (fun u hu => by simpa using (pySplitWs_words s u (hws ▸ hu)).1)

theorem collapseWs_idem (s : Str) : collapseWs (collapseWs s) = collapseWs s := by
  show List.intercalate [' '] (pySplitWs (collapseWs s)) = collapseWs s
  rw [pySplitWs_collapseWs]
  rfl

theorem pySplitWs_eq_nil_iff (s : Str) : pySplitWs s = [] ↔ hasNonWs s = false := by
  induction s with
  | nil => decide
  | cons a xs ih =>
    by_cases ha : a.isWhitespace
    · have h1 : pySplitWs (a :: xs) = pySplitWs xs := by
        unfold pySplitWs
        rw [List.splitOnP_cons, if_pos (by simpa using ha)]
        rfl
      have h2 : hasNonWs (a :: xs) = hasNonWs xs := by
        unfold hasNonWs
        rw [List.any_cons, ha]
        simp
      rw [h1, h2, ih]
    · have h2 : hasNonWs (a :: xs) = true := by
        unfold hasNonWs
        rw [List.any_cons]
        simp [ha]
      have h3 : pySplitWs (a :: xs) ≠ [] := by
        unfold pySplitWs
        rw [List.splitOnP_cons, if_neg (by simpa using ha)]
        rcases hsp : xs.splitOnP (fun c => c.isWhitespace) with _ | ⟨hd, tl⟩
        · exact absurd hsp (List.splitOnP_ne_nil _ xs)
        · rw [hsp, List.modifyHead_cons]
          simp [List.filter_cons]
      simp [h2, h3]

theorem hasNonWs_collapseWs (s : Str) : hasNonWs (collapseWs s) = hasNonWs s := by
  rcases h : hasNonWs s with _ | _
  · have h0 : pySplitWs s = [] := (pySplitWs_eq_nil_iff s).mpr h
    unfold collapseWs
    rw [h0]
    decide
  · rcases h2 : hasNonWs (collapseWs s) with _ | _
    · have h3 : pySplitWs (collapseWs s) = [] := (pySplitWs_eq_nil_iff _).mpr h2
      rw [pySplitWs_collapseWs] at h3
      rw [(pySplitWs_eq_nil_iff s).mp h3] at h
      exact absurd h (by decide)
    · rfl

/-! ### Lower-casing commutes with the normal form -/

theorem pyLower_hasNonWs (s : Str) : hasNonWs (pyLower s) = hasNonWs s := by
  unfold hasNonWs pyLower
  rw [List.any_map]
  congr 1
  funext c
  show (!(pyLowerChar c).isWhitespace) = (!c.isWhitespace)
  rw [pyLowerChar_ws]

theorem pySplitWs_pyLower (s : Str) :
    pySplitWs (pyLower s) = (pySplitWs s).map (List.map pyLowerChar) := by
  unfold pySplitWs pyLower
  rw [splitOnP_map _ pyLowerChar (fun c => by show (pyLowerChar c).isWhitespace = _; rw [pyLowerChar_ws]) s]
  rw [List.filter_map]
  congr 1
  apply List.filter_congr
  intro u _
  show decide (List.map pyLowerChar u ≠ []) = decide (u ≠ [])
  exact decide_eq_decide.mpr (by simp)

theorem pyLower_collapseWs (s : Str) : pyLower (collapseWs s) = collapseWs (pyLower s) := by
  show List.map pyLowerChar (List.intercalate [' '] (pySplitWs s))
    = List.intercalate [' '] (pySplitWs (pyLower s))
  rw [map_intercalate, pySplitWs_pyLower]
  have hsp : List.map pyLowerChar [' '] = [' '] := by decide
  rw [hsp]

theorem pyLower_idem (s : Str) : pyLower (pyLower s) = pyLower s := by
  unfold pyLower
  rw [List.map_map]
  exact List.map_congr_left (fun c _ => pyLowerChar_idem c)

/-! ### The POSIX path renderer -/

theorem posixComps_facts (s : Str) :
    ∀ w ∈ posixComps s, w ≠ [] ∧ w ≠ ['.'] ∧ ∀ c ∈ w, (c == '/') = false := by
  intro w hw
  have h1 := List.of_mem_filter hw
  have h2 := List.mem_of_mem_filter hw
  have h2p : w ∈ s.splitOnP (fun c => c == '/') := h2
  simp only [decide_eq_true_eq] at h1
  exact ⟨h1.1, h1.2, fun c hc => splitOnP_pieces (fun c => c == '/') s w h2p c hc⟩

theorem posixRoot_cases (s : Str) :
    posixRoot s = [] ∨ posixRoot s = ['/'] ∨ posixRoot s = ['/', '/'] := by
  unfold posixRoot
  split
  · exact Or.inr (Or.inr rfl)
  · split
    · exact Or.inr (Or.inl rfl)
    · exact Or.inl rfl

theorem intercalate_cons_head {α : Type} (sep : α) (c1 : List α) (rest : List (List α)) :
    ∃ X, List.intercalate [sep] (c1 :: rest) = c1 ++ X := by
  cases rest with
  | nil => exact ⟨[], by simp [List.intercalate]⟩
  | cons w2 t =>
    exact ⟨sep :: List.intercalate [sep] (w2 :: t),
      by simp [List.intercalate, List.intersperse_cons_cons]⟩

theorem posixRoot_of_head (ch : Char) (t : Str) (hch : ch ≠ '/') :
    posixRoot (ch :: t) = [] := by
  have h2 : List.take 2 (ch :: t) ≠ ['/', '/'] := fun h => by
    rw [List.take_succ_cons] at h
    exact hch (List.cons_eq_cons.mp h).1
  have h1 : List.take 1 (ch :: t) ≠ ['/'] := fun h => by
    rw [List.take_succ_cons] at h
    exact hch (List.cons_eq_cons.mp h).1
  unfold posixRoot
  rw [if_neg (fun hc => h2 hc.1), if_neg h1]

theorem posixRoot_slash (ch : Char) (t : Str) (hch : ch ≠ '/') :
    posixRoot ('/' :: ch :: t) = ['/'] := by
  have h2 : List.take 2 ('/' :: ch :: t) ≠ ['/', '/'] := fun h => by
    rw [List.take_succ_cons, List.take_succ_cons] at h
    exact hch (List.cons_eq_cons.mp (List.cons_eq_cons.mp h).2).1
  have h1 : List.take 1 ('/' :: ch :: t) = ['/'] := rfl
  unfold posixRoot
  rw [if_neg (fun hc => h2 hc.1), if_pos h1]

theorem posixRoot_slash2 (ch : Char) (t : Str) (hch : ch ≠ '/') :
    posixRoot ('/' :: '/' :: ch :: t) = ['/', '/'] := by
  have h3 : List.take 3 ('/' :: '/' :: ch :: t) ≠ ['/', '/', '/'] := fun h => by
    rw [List.take_succ_cons, List.take_succ_cons, List.take_succ_cons] at h
    exact hch (List.cons_eq_cons.mp (List.cons_eq_cons.mp (List.cons_eq_cons.mp h).2).2).1
  have hc : List.take 2 ('/' :: '/' :: ch :: t) = ['/', '/']
      ∧ List.take 3 ('/' :: '/' :: ch :: t) ≠ ['/', '/', '/'] := ⟨rfl, h3⟩
  unfold posixRoot
  rw [if_pos hc]

theorem posixNormalize_empty_comps (s : Str) (h : posixComps s = []) :
    posixNormalize s = (if posixRoot s = [] then ['.'] else posixRoot s) := by
  show (if posixComps s = [] then (if posixRoot s = [] then ['.'] else posixRoot s)
    else posixRoot s ++ List.intercalate ['/'] (posixComps s)) = _
  rw [h, if_pos rfl]

theorem posixNormalize_cons_comps (s : Str) (c1 : Str) (rest : List Str)
    (h : posixComps s = c1 :: rest) :
    posixNormalize s = posixRoot s ++ List.intercalate ['/'] (c1 :: rest) := by
  show (if posixComps s = [] then (if posixRoot s = [] then ['.'] else posixRoot s)
    else posixRoot s ++ List.intercalate ['/'] (posixComps s)) = _
  rw [h, if_neg (List.cons_ne_nil _ _)]

theorem posixNormalize_ne_nil (s : Str) : posixNormalize s ≠ [] := by
  rcases hcs : posixComps s with _ | ⟨c1, rest⟩
  · rw [posixNormalize_empty_comps s hcs]
    rcases posixRoot_cases s with hr | hr | hr <;> rw [hr] <;> decide
  · rw [posixNormalize_cons_comps s c1 rest hcs]
    have hne := (posixComps_facts s c1 (by rw [hcs]; exact List.mem_cons_self c1 rest)).1
    obtain ⟨X, hX⟩ := intercalate_cons_head '/' c1 rest
    rw [hX]
    intro hcon
    rcases List.append_eq_nil.mp hcon with ⟨_, h2⟩
    rcases List.append_eq_nil.mp h2 with ⟨h3, _⟩
    exact hne h3

theorem posixNormalize_idem (s : Str) :
    posixNormalize (posixNormalize s) = posixNormalize s := by
  rcases hcs : posixComps s with _ | ⟨c1, rest⟩
  · rw [posixNormalize_empty_comps s hcs]
    rcases posixRoot_cases s with hr | hr | hr <;> rw [hr] <;> decide
  · obtain ⟨hne, hnd, hnos⟩ :=
      posixComps_facts s c1 (by rw [hcs]; exact List.mem_cons_self c1 rest)
    obtain ⟨ch, c1t, rfl⟩ : ∃ ch c1t, c1 = ch :: c1t := by
      cases c1 with
      | nil => exact absurd rfl hne
      | cons a b => exact ⟨a, b, rfl⟩
    have hch : ch ≠ '/' := by
      have := hnos ch (List.mem_cons_self ch c1t)
      simpa using this
    have hall : ∀ w ∈ (ch :: c1t) :: rest,
        w ≠ [] ∧ w ≠ ['.'] ∧ ∀ c ∈ w, (c == '/') = false :=
      fun w hw => posixComps_facts s w (by rw [hcs]; exact hw)
    have hps := posixNormalize_cons_comps s (ch :: c1t) rest hcs
    obtain ⟨X, hX⟩ := intercalate_cons_head '/' (ch :: c1t) rest
    have hsplit : (List.intercalate ['/'] ((ch :: c1t) :: rest)).splitOnP
        (fun c => c == '/') = (ch :: c1t) :: rest :=
      splitOnP_intercalate_pieces (fun c => c == '/') '/' rfl _ (List.cons_ne_nil _ _)
        (fun w hw c hc => (hall w hw).2.2 c hc)
    have hfilter : ((ch :: c1t) :: rest).filter
        (fun p => decide (p ≠ [] ∧ p ≠ ['.'])) = (ch :: c1t) :: rest :=
      List.filter_eq_self.mpr (fun u hu => by
        have h := hall u hu
        simp [h.1, h.2.1])
    have hcomps2 : posixComps (posixNormalize s) = (ch :: c1t) :: rest := by
      rw [hps]
      rcases posixRoot_cases s with hr | hr | hr <;> rw [hr]
      · rw [List.nil_append]
        show ((List.intercalate ['/'] ((ch :: c1t) :: rest)).splitOnP
          (fun c => c == '/')).filter (fun p => decide (p ≠ [] ∧ p ≠ ['.'])) = _
        rw [hsplit]
        exact hfilter
      · rw [List.singleton_append]
        show (('/' :: List.intercalate ['/'] ((ch :: c1t) :: rest)).splitOnP
          (fun c => c == '/')).filter (fun p => decide (p ≠ [] ∧ p ≠ ['.'])) = _
        simp only [List.splitOnP_cons, beq_self_eq_true, if_true]
        rw [hsplit]
        exact hfilter
      · simp only [List.cons_append, List.nil_append]
        show (('/' :: '/' :: List.intercalate ['/'] ((ch :: c1t) :: rest)).splitOnP
          (fun c => c == '/')).filter (fun p => decide (p ≠ [] ∧ p ≠ ['.'])) = _
        simp only [List.splitOnP_cons, beq_self_eq_true, if_true]
        rw [hsplit]
        exact hfilter
    have hroot2 : posixRoot (posixNormalize s) = posixRoot s := by
      rw [hps, hX]
      rcases posixRoot_cases s with hr | hr | hr <;> rw [hr] <;>
        simp only [List.cons_append, List.nil_append, List.singleton_append]
      · exact posixRoot_of_head ch (c1t ++ X) hch
      · exact posixRoot_slash ch (c1t ++ X) hch
      · exact posixRoot_slash2 ch (c1t ++ X) hch
    rw [posixNormalize_cons_comps (posixNormalize s) (ch :: c1t) rest hcomps2,
      hroot2, ← hps]

theorem validate_str_eq (key v : Str) (hws : hasNonWs v = true) :
    validate_and_normalize_string key (.str v)
      = some (if key = str "path"
          then posixNormalize (if key = str "name" then pyLower (collapseWs v)
            else collapseWs v)
          else (if key = str "name" then pyLower (collapseWs v) else collapseWs v)) := by
  show (if ¬ hasNonWs v then Option.none
    else some (if key = str "path"
      then posixNormalize (if key = str "name" then pyLower (collapseWs v)
        else collapseWs v)
      else (if key = str "name" then pyLower (collapseWs v) else collapseWs v))) = _
  rw [if_neg (by simp [hws])]

theorem validate_str_none (key v : Str) (hws : ¬ hasNonWs v = true) :
    validate_and_normalize_string key (.str v) = Option.none := by
  show (if ¬ hasNonWs v then Option.none
    else some (if key = str "path"
      then posixNormalize (if key = str "name" then pyLower (collapseWs v)
        else collapseWs v)
      else (if key = str "name" then pyLower (collapseWs v) else collapseWs v))) = _
  rw [if_pos hws]

/-- C10 (amended).  The shared field normalizer is idempotent on every
accepted value of every non-path field (name fields included); for the
path field it is idempotent exactly on outputs that are already
whitespace-normal, and not in general, because the POSIX step runs after
the whitespace collapse and can re-introduce boundary whitespace. -/
theorem C10_normalizer_idempotent (key v out : Str)
    (h : validate_and_normalize_string key (.str v) = some out) :
    (key ≠ str "path" → validate_and_normalize_string key (.str out) = some out)
    ∧ (collapseWs out = out → validate_and_normalize_string key (.str out) = some out) := by
  by_cases hws : hasNonWs v = true
  · rw [validate_str_eq key v hws] at h
    have hout := Option.some.injEq _ _ ▸ h
    by_cases hpath : key = str "path"
    · have hname : ¬ key = str "name" := by
        rw [hpath]
        decide
      rw [if_pos hpath, if_neg hname] at hout
      refine ⟨fun hk => absurd hpath hk, fun hcw => ?_⟩
      have hnn : hasNonWs out = true := by
        by_contra hno
        have h0 : pySplitWs out = [] := (pySplitWs_eq_nil_iff out).mpr
          (by revert hno; cases hasNonWs out <;> simp)
        have h1 : collapseWs out = [] := by
          unfold collapseWs
          rw [h0]
          rfl
        rw [hcw] at h1
        exact posixNormalize_ne_nil (collapseWs v) (by rw [hout]; exact h1)
      rw [validate_str_eq key out hnn, if_pos hpath, if_neg hname, hcw, ← hout,
        posixNormalize_idem, hout]
    · by_cases hname : key = str "name"
      · rw [if_neg hpath, if_pos hname] at hout
        have hnn : hasNonWs out = true := by
          rw [← hout, pyLower_hasNonWs, hasNonWs_collapseWs]
          exact hws
        have hfix : validate_and_normalize_string key (.str out) = some out := by
          rw [validate_str_eq key out hnn, if_neg hpath, if_pos hname, ← hout]
          have e1 : collapseWs (pyLower (collapseWs v)) = pyLower (collapseWs v) := by
            rw [← pyLower_collapseWs (collapseWs v), collapseWs_idem]
          rw [e1, pyLower_idem]
        exact ⟨fun _ => hfix, fun _ => hfix⟩
      · rw [if_neg hpath, if_neg hname] at hout
        have hnn : hasNonWs out = true := by
          rw [← hout, hasNonWs_collapseWs]
          exact hws
        have hfix : validate_and_normalize_string key (.str out) = some out := by
          rw [validate_str_eq key out hnn, if_neg hpath, if_neg hname, ← hout,
            collapseWs_idem]
        exact ⟨fun _ => hfix, fun _ => hfix⟩
  · rw [validate_str_none key v hws] at h
    exact absurd h (by simp)

theorem py_str_find_spec (hay needle : Str) (i : Nat)
    (h : py_str_find hay needle = some i) :
    hay.take i ++ needle ++ hay.drop (i + needle.length) = hay := by
  induction hay generalizing i with
  | nil =>
    by_cases hn : needle = ([] : Str)
    · subst hn
      simp only [py_str_find, if_pos rfl, Option.some.injEq] at h
      simp [← h]
    · simp [py_str_find, hn] at h
  | cons c t ih =>
    by_cases hp : needle.isPrefixOf (c :: t)
    · simp only [py_str_find, if_pos hp, Option.some.injEq] at h
      obtain ⟨rest, hrest⟩ := List.isPrefixOf_iff_prefix.mp hp
      rw [← h, List.take_zero, List.nil_append, Nat.zero_add, ← hrest, List.drop_left]
    · simp only [py_str_find, if_neg hp] at h
      obtain ⟨j, hj, hji⟩ := Option.map_eq_some'.mp h
      subst hji
      have hrec := ih j hj
      calc (c :: t).take (j + 1) ++ needle ++ (c :: t).drop (j + 1 + needle.length)
          = c :: (t.take j ++ needle ++ t.drop (j + needle.length)) := by
            rw [List.take_succ_cons]
            have hdrop : j + 1 + needle.length = (j + needle.length) + 1 := by omega
            rw [hdrop, List.drop_succ_cons]
            simp
        _ = c :: t := by rw [hrec]

theorem py_str_find_of_infix (needle pre post : Str) :
    ∃ i, py_str_find (pre ++ needle ++ post) needle = some i := by
  induction pre with
  | nil =>
    refine ⟨0, ?_⟩
    rw [List.nil_append]
    have hpre : needle.isPrefixOf (needle ++ post) :=
      List.isPrefixOf_iff_prefix.mpr (List.prefix_append needle post)
    cases hnp : needle ++ post with
    | nil =>
      have hn : needle = ([] : Str) := (List.append_eq_nil.mp hnp).1
      simp [py_str_find, hn]
    | cons c t =>
      rw [hnp] at hpre
      simp only [py_str_find, if_pos hpre]
  | cons a pre ih =>
    obtain ⟨j, hj⟩ := ih
    rw [List.cons_append]
    by_cases hp : needle.isPrefixOf (a :: (pre ++ needle ++ post))
    · exact ⟨0, by simp only [py_str_find, List.append_eq]; rw [if_pos hp]⟩
    · refine ⟨j + 1, ?_⟩
      simp only [py_str_find, List.append_eq]
      rw [if_neg hp, hj]
      rfl

/-- When the needle does occur somewhere, py_str_find cannot answer none. -/
theorem py_str_find_ne_none (hay needle : Str)
    (hoc : ∃ pre post, hay = pre ++ needle ++ post) :
    ∃ i, py_str_find hay needle = some i := by
  obtain ⟨pre, post, hsplit⟩ := hoc
  subst hsplit
  exact py_str_find_of_infix needle pre post

/-- The located case of the name split reassembles the full name. -/
theorem nameSplit_located (full bold : Str) (hb : bold ≠ [])
    (hoc : ∃ pre post, full = pre ++ bold ++ post) :
    (nameSplit full bold).1 ++ (nameSplit full bold).2.1
        ++ ((nameSplit full bold).2.2.getD []) = full
    ∧ (nameSplit full bold).2.1 = bold := by
  obtain ⟨i, hi⟩ := py_str_find_ne_none _ _ hoc
  have hsp := py_str_find_spec _ _ _ hi
  constructor
  · simpa [nameSplit, hb, hi] using hsp
  · simp [nameSplit, hb, hi]

/-- The fallback case of the name split: nothing located, the pretty
part is the whole full name. -/
theorem nameSplit_fallback (full bold : Str)
    (h : bold = [] ∨ ¬ ∃ pre post, full = pre ++ bold ++ post) :
    nameSplit full bold = ([], full, Option.none) := by
  rcases h with hb | hoc
  · simp [nameSplit, hb]
  · have hnone : py_str_find full bold = Option.none := by
      cases hfd : py_str_find full bold with
      | none => rfl
      | some i => exact absurd ⟨_, _, (py_str_find_spec _ _ _ hfd).symm⟩ hoc
    by_cases hb : bold = []
    · simp [nameSplit, hb]
    · simp [nameSplit, hb, hnone]

/-- C9.  The preview route's name split: when the bold name is non-empty
and occurs inside the full name, the computed before, pretty and after
parts concatenate back to the full name with pretty equal to the bold
name; when the bold name is empty or does not occur, the before part
and the rendered after part are empty and the pretty part is the whole
full name — and the same holds for the original-language pair. -/
theorem C9_viewer_name_split (d : ViewerRecord) :
    ((d.bold_name ≠ [] ∧ ∃ pre post, d.full_name = pre ++ d.bold_name ++ post) →
      (render_doujinshi_preview d).before ++ (render_doujinshi_preview d).pretty
          ++ renderedAfter (render_doujinshi_preview d) = d.full_name
        ∧ (render_doujinshi_preview d).pretty = d.bold_name)
    ∧ ((d.bold_name = [] ∨ ¬ ∃ pre post, d.full_name = pre ++ d.bold_name ++ post) →
      (render_doujinshi_preview d).before = []
        ∧ renderedAfter (render_doujinshi_preview d) = []
        ∧ (render_doujinshi_preview d).pretty = d.full_name)
    ∧ ((d.bold_name_original ≠ []
        ∧ ∃ pre post, d.full_name_original = pre ++ d.bold_name_original ++ post) →
      (render_doujinshi_preview d).before_original
          ++ (render_doujinshi_preview d).pretty_original
          ++ renderedAfterOriginal (render_doujinshi_preview d) = d.full_name_original
        ∧ (render_doujinshi_preview d).pretty_original = d.bold_name_original)
    ∧ ((d.bold_name_original = []
        ∨ ¬ ∃ pre post, d.full_name_original = pre ++ d.bold_name_original ++ post) →
      (render_doujinshi_preview d).before_original = []
        ∧ renderedAfterOriginal (render_doujinshi_preview d) = []
        ∧ (render_doujinshi_preview d).pretty_original = d.full_name_original) := by
  refine ⟨?_, ?_, ?_, ?_⟩
  · rintro ⟨hb, hoc⟩
    have h := nameSplit_located d.full_name d.bold_name hb hoc
    simpa [render_doujinshi_preview, renderedAfter] using h
  · intro h
    have hfb := nameSplit_fallback d.full_name d.bold_name h
    simp [render_doujinshi_preview, renderedAfter, hfb]
  · rintro ⟨hb, hoc⟩
    have hfo : d.full_name_original ≠ [] := by
      intro hnil
      obtain ⟨pre, post, hd⟩ := hoc
      rw [hnil] at hd
      have h1 := List.append_eq_nil.mp hd.symm
      have h2 := List.append_eq_nil.mp h1.1
      exact hb h2.2
    have h := nameSplit_located d.full_name_original d.bold_name_original hb hoc
    simpa [render_doujinshi_preview, renderedAfterOriginal, if_neg hfo] using h
  · intro h
    by_cases hfo : d.full_name_original = []
    · simp [render_doujinshi_preview, renderedAfterOriginal, hfo]
    · have hfb := nameSplit_fallback d.full_name_original d.bold_name_original h
      simp [render_doujinshi_preview, renderedAfterOriginal, if_neg hfo, hfb]

theorem pagesToInsert_map_filename (did : Int) :
    ∀ (i : Int) (L : List Str), (pagesToInsert did i L).map PageRow.filename = L
  | _, [] => rfl
  | i, f :: fs => by
    simp [pagesToInsert, pagesToInsert_map_filename did (i + 1) fs]

theorem pagesToInsert_mem (did : Int) :
    ∀ (i : Int) (L : List Str) (p : PageRow), p ∈ pagesToInsert did i L →
      p.doujinshi_id = did ∧ i ≤ p.order_number
  | i, f :: fs, p, hp => by
    rcases List.mem_cons.mp hp with h | h
    · subst h
      exact ⟨rfl, le_refl _⟩
    · have := pagesToInsert_mem did (i + 1) fs p h
      exact ⟨this.1, by omega⟩

theorem pagesToInsert_pairwise (did : Int) :
    ∀ (i : Int) (L : List Str),
      (pagesToInsert did i L).Pairwise (fun a b => a.order_number < b.order_number)
  | _, [] => List.Pairwise.nil
  | i, f :: fs => by
    refine List.Pairwise.cons ?_ (pagesToInsert_pairwise did (i + 1) fs)
    intro p hp
    have := (pagesToInsert_mem did (i + 1) fs p hp).2
    show (⟨did, i, f⟩ : PageRow).order_number < p.order_number
    simp only [PageRow.mk.injEq]
    omega

/-- Reading back the pages after a full replace returns exactly the
submitted list in order. -/
theorem pagesOf_after_replace (s : DBState) (did : Int) (L : List Str) :
    pagesOf { s with
      page := s.page.filter (fun p => p.doujinshi_id != did) ++ pagesToInsert did 1 L }
      did = L := by
  unfold pagesOf
  have hkept : (s.page.filter (fun p => p.doujinshi_id != did)).filter
      (fun p => p.doujinshi_id == did) = [] := by
    rw [List.filter_eq_nil_iff]
    intro p hp
    have := (List.mem_filter.mp hp).2
    simp only [bne_iff_ne, ne_eq] at this
    simp [this]
  have hnew : (pagesToInsert did 1 L).filter (fun p => p.doujinshi_id == did) =
      pagesToInsert did 1 L := by
    rw [List.filter_eq_self]
    intro p hp
    have := (pagesToInsert_mem did 1 L p hp).1
    simp [this]
  have hsorted : (pagesToInsert did 1 L).Sorted (fun a b => a.order_number ≤ b.order_number) :=
    (pagesToInsert_pairwise did 1 L).imp (fun h => le_of_lt h)
  simp only [List.filter_append, hkept, hnew, List.nil_append,
    hsorted.insertionSort_eq]
  exact pagesToInsert_map_filename did 1 L

/-- C6 (amended).  Page replacement is a full replace for every
duplicate-free list of non-blank filenames, keyed by the truthiness of
the work's selected id: the work ends with exactly the submitted list
(in order), an empty or absent list clears the pages and still
succeeds, and a work whose id does not select truthily reports
NOT_FOUND and changes nothing. -/
theorem C6_page_replace (s : DBState) (did : Int) (L : List Str)
    (hnd : L.Nodup) (hnb : ([] : Str) ∉ L) :
    (doujinshiTruthy s did = true →
      ((add_pages_to_doujinshi s did (some L)).1 = .OK
        ∧ pagesOf (add_pages_to_doujinshi s did (some L)).2 did = L)
      ∧ ((add_pages_to_doujinshi s did (some [])).1 = .OK
        ∧ pagesOf (add_pages_to_doujinshi s did (some [])).2 did = [])
      ∧ ((remove_all_pages_from_doujinshi s did).1 = .OK
        ∧ pagesOf (remove_all_pages_from_doujinshi s did).2 did = []))
    ∧ (doujinshiTruthy s did = false →
      add_pages_to_doujinshi s did (some L) = (.NOT_FOUND, s)
      ∧ add_pages_to_doujinshi s did (some []) = (.NOT_FOUND, s)
      ∧ remove_all_pages_from_doujinshi s did = (.NOT_FOUND, s)) := by
  constructor
  · intro htru
    have hclear : pagesOf { s with
        page := s.page.filter (fun p => p.doujinshi_id != did) } did = [] := by
      have h0 := pagesOf_after_replace s did []
      simpa [pagesToInsert] using h0
    refine ⟨?_, ?_, ?_⟩
    · unfold add_pages_to_doujinshi _set_pages_to_doujinshi
      rw [htru]
      cases hL : L with
      | nil =>
        simp only [Bool.not_true, Bool.false_eq_true, if_false, List.isEmpty_nil, if_true]
        exact ⟨by simp, hclear⟩
      | cons f fs =>
        rw [← hL]
        have hne : L.isEmpty = false := by rw [hL]; rfl
        have hdup : (decide (¬ L.Nodup) || L.contains []) = false := by
          have hc : L.contains ([] : Str) = false := by
            rw [List.contains_eq_any_beq]
            rw [List.any_eq_false]
            intro x hx
            simp only [beq_iff_eq]
            intro hxe
            exact hnb (hxe ▸ hx)
          simp [hnd, hc, hnb]
        simp only [Bool.not_true, Bool.false_eq_true, if_false, hne, hdup]
        exact ⟨by simp, pagesOf_after_replace s did L⟩
    · unfold add_pages_to_doujinshi _set_pages_to_doujinshi
      rw [htru]
      simp only [Bool.not_true, Bool.false_eq_true, if_false, List.isEmpty_nil, if_true]
      exact ⟨by simp, hclear⟩
    · unfold remove_all_pages_from_doujinshi _set_pages_to_doujinshi
      rw [htru]
      simp only [Bool.not_true, Bool.false_eq_true, if_false]
      exact ⟨by simp, hclear⟩
  · intro hfalse
    refine ⟨?_, ?_, ?_⟩ <;>
      simp [add_pages_to_doujinshi, remove_all_pages_from_doujinshi,
        _set_pages_to_doujinshi, hfalse]

/-- Witness for C6: replacing the single page a of work 1 with the list
p3, p1 succeeds and reads back exactly p3, p1. -/
theorem C6_page_replace_witness :
    (add_pages_to_doujinshi sOnePage 1 (some [str "p3", str "p1"])).1 = .OK
    ∧ pagesOf (add_pages_to_doujinshi sOnePage 1 (some [str "p3", str "p1"])).2 1
      = [str "p3", str "p1"] :=
  ((C6_page_replace sOnePage 1 [str "p3", str "p1"] (by decide) (by decide)).1
    (by decide)).1

/-- Counterexample to C6 as frozen: for the duplicate list b, b the
operation does not install the submitted list — it reports
INTEGRITY_ERROR and the work keeps its old page a. -/
theorem C6_page_replace_counterexample :
    add_pages_to_doujinshi sOnePage 1 (some [str "b", str "b"])
      = (.INTEGRITY_ERROR, sOnePage)
    ∧ pagesOf sOnePage 1 = [str "a"] := by
  constructor
  · rfl
  · rfl

/-- The ceiling-by-a-positive-divisor bound: the last page covers the
whole table. -/
theorem ceilDivInt_mul_ge (a b : Int) (hb : 1 ≤ b) :
    a ≤ ceilDivInt a b * b := by
  unfold ceilDivInt
  have hbne : b ≠ 0 := by omega
  have hmod := Int.emod_nonneg (a + b - 1) hbne
  have hlt := Int.emod_lt_of_pos (a + b - 1) (by omega : 0 < b)
  have hdm := Int.ediv_add_emod (a + b - 1) b
  have hcomm : (a + b - 1) / b * b = b * ((a + b - 1) / b) := mul_comm _ _
  linarith

/-- C3 (amended).  A page number below 1 yields an empty list in every
mode, and a page beyond the last yields an empty list when the total
count is omitted.  (When a truthy total count is supplied, a page
beyond the last does NOT come back empty — see the counterexample —
because the back-half branch computes a negative OFFSET, which SQLite
clamps to zero.) -/
theorem C3_out_of_range_pages (s : DBState) (page_size page_number : Int)
    (n_doujinshi : Option Int) (hk : 1 ≤ page_size) :
    (page_number < 1 →
      get_doujinshi_in_page s page_size page_number n_doujinshi = [])
    ∧ (ceilDivInt (how_many_doujinshi s) page_size < page_number →
      get_doujinshi_in_page s page_size page_number Option.none = []) := by
  constructor
  · intro hlt
    unfold get_doujinshi_in_page
    rw [if_pos hlt]
  · intro hgt
    have hN0 : (0 : Int) ≤ how_many_doujinshi s := by
      unfold how_many_doujinshi
      positivity
    have hM0 : 0 ≤ ceilDivInt (how_many_doujinshi s) page_size := by
      unfold ceilDivInt
      have : (0 : Int) ≤ (how_many_doujinshi s + page_size - 1) / page_size :=
        Int.ediv_nonneg (by omega) (by omega)
      omega
    have hp1 : ¬ page_number < 1 := by omega
    unfold get_doujinshi_in_page
    rw [if_neg hp1]
    have hdrop : (descRows s).drop ((page_number - 1) * page_size).toNat = [] := by
      apply List.drop_eq_nil_of_le
      have hlen : (descRows s).length = s.doujinshi.length :=
        (List.perm_insertionSort _ _).length_eq
      have hbound : (how_many_doujinshi s : Int) ≤ (page_number - 1) * page_size := by
        have h1 : ceilDivInt (how_many_doujinshi s) page_size ≤ page_number - 1 := by
          omega
        have h2 := ceilDivInt_mul_ge (how_many_doujinshi s) page_size hk
        have h3 : ceilDivInt (how_many_doujinshi s) page_size * page_size
            ≤ (page_number - 1) * page_size :=
          mul_le_mul_of_nonneg_right h1 (by omega)
        omega
      unfold how_many_doujinshi at hbound
      rw [hlen]
      generalize hq : (page_number - 1) * page_size = q at hbound
      omega
    simp [sqlSlice, hdrop]

/-- Witness for C3 at a concrete catalog: page 0 and a page past the
last both come back empty when the count is omitted. -/
theorem C3_out_of_range_pages_witness :
    get_doujinshi_in_page sOne 1 0 (some 1) = []
    ∧ get_doujinshi_in_page sOne 1 2 Option.none = [] :=
  ⟨(C3_out_of_range_pages sOne 1 0 (some 1) (by decide)).1 (by decide),
    (C3_out_of_range_pages sOne 1 2 Option.none (by decide)).2 (by decide)⟩

/-- Counterexample to C3 as frozen: with the total count supplied, a
page beyond the last is not empty — on a one-work catalog, page 2 of
size 1 with total 1 returns the whole work again (the computed OFFSET
is negative and SQLite treats it as zero). -/
theorem C3_out_of_range_pages_counterexample :
    get_doujinshi_in_page sOne 1 2 (some 1)
      = [⟨1, str "w", str "a", Option.none, Option.none⟩] := by
  rfl

/-- Witness for C9 at a concrete record: the bold part lo wo of
hello world is located and the split concatenates back. -/
theorem C9_viewer_name_split_witness :
    (render_doujinshi_preview ⟨str "hello world", str "lo wo", str "", str ""⟩).before
        ++ (render_doujinshi_preview ⟨str "hello world", str "lo wo", str "", str ""⟩).pretty
        ++ renderedAfter (render_doujinshi_preview ⟨str "hello world", str "lo wo", str "", str ""⟩)
      = str "hello world"
    ∧ (render_doujinshi_preview ⟨str "hello world", str "lo wo", str "", str ""⟩).pretty
      = str "lo wo" :=
  (C9_viewer_name_split ⟨str "hello world", str "lo wo", str "", str ""⟩).1
    ⟨by decide, str "hel", str "rld", by decide⟩

/-- C1.  The round-trip property fails on the code as given: submitting
the valid round-trip record returns EXCEPTION instead of OK, because
linking the three parodies constructs Parody(name=..., count=0) and the
parody model declares no count column; nothing is stored, so the
subsequent fetch finds no work 1.  (The spec, the test suite and the
rest of database.py all assume the column exists.) -/
theorem C1_roundtrip_bug :
    insert_doujinshi freshDB c1Record false true false = (.EXCEPTION, freshDB)
    ∧ get_doujinshi freshDB 1 = .ok Option.none := by
  constructor
  · rfl
  · rfl

/-- C4.  The count-cache invariant cannot be re-established by the batch
recompute: update_count_of_all builds update(Parody).values(count=0)
first, which raises because the parody table has no count column, so
the call returns EXCEPTION and leaves every state unchanged. -/
theorem C4_update_count_of_all_raises (s : DBState) :
    update_count_of_all s = (.EXCEPTION, s) := rfl

/-- C7.  Work removal aborts on the failing input: removing a work that
has a parody membership fires the decrement trigger on the missing
parody count column, so the DELETE rolls back with EXCEPTION and the
work, its pages and its memberships all survive; removing a nonexistent
id still reports NOT_FOUND and changes nothing. -/
theorem C7_remove_cascade_bug :
    remove_doujinshi sParodyLinked 1 = (.EXCEPTION, sParodyLinked)
    ∧ remove_doujinshi sParodyLinked 99 = (.NOT_FOUND, sParodyLinked) := by
  constructor
  · rfl
  · rfl

/-- C5.  Taxonomy insert-by-name on the parody table: the normalized name
is stored, a second normalization-equal insert reports ALREADY_EXISTS
with exactly one row, and blank or wrongly typed input fails with a
fatal status and no row — but the claimed count = 0 cannot be observed,
because the parody table has no count column and the count query raises
an AttributeError. -/
theorem C5_insert_item_bug :
    (insert_parody freshDB (.str (str "  Multiple   Spaces  "))).1 = .OK
    ∧ ((insert_parody freshDB (.str (str "  Multiple   Spaces  "))).2.parody.map
        (fun it => it.name)) = [str "multiple spaces"]
    ∧ (insert_parody (insert_parody freshDB (.str (str "  Multiple   Spaces  "))).2
        (.str (str "multiple spaces"))) =
      ((.ALREADY_EXISTS : DatabaseStatus),
        (insert_parody freshDB (.str (str "  Multiple   Spaces  "))).2)
    ∧ get_count_of_parodies (insert_parody freshDB (.str (str "  Multiple   Spaces  "))).2
        [str "multiple spaces"] = .error .attributeError
    ∧ insert_tag freshDB (.str (str "")) = (.EXCEPTION, freshDB)
    ∧ insert_tag freshDB (.str (str "   ")) = (.EXCEPTION, freshDB)
    ∧ insert_tag freshDB PyVal.none = (.EXCEPTION, freshDB)
    ∧ insert_tag freshDB (.bool true) = (.EXCEPTION, freshDB)
    ∧ insert_tag freshDB (.int 7) = (.EXCEPTION, freshDB)
    ∧ insert_tag freshDB (.bytes [97]) = (.EXCEPTION, freshDB) := by
  refine ⟨rfl, rfl, rfl, rfl, rfl, rfl, rfl, rfl, rfl, rfl⟩

/-- C8.  Insertion is atomic on failure: whenever insert_doujinshi
returns any status other than OK, the catalog state it returns is
exactly the state it was given — every failure path exits the session
without committing, so the transaction rolls back. -/
theorem C8_insert_atomic (s : DBState) (d : DoujinshiInput)
    (user_prompt promptAnswer disable_validation : Bool)
    (h : (insert_doujinshi s d user_prompt promptAnswer disable_validation).1 ≠ .OK) :
    (insert_doujinshi s d user_prompt promptAnswer disable_validation).2 = s := by
  have hcases :
      (insert_doujinshi s d user_prompt promptAnswer disable_validation).1 = .OK
      ∨ (insert_doujinshi s d user_prompt promptAnswer disable_validation).2 = s := by
    unfold insert_doujinshi
    repeat' split
    all_goals simp
  exact hcases.resolve_left h

/-- Witness for C8 at a concrete failing insert: the duplicate-page
record fails validation on the initialized catalog and the state comes
back unchanged. -/
theorem C8_insert_atomic_witness :
    (insert_doujinshi freshDB dupPagesRecord false true false).2 = freshDB :=
  C8_insert_atomic freshDB dupPagesRecord false true false (by decide)

/-- C2.  The pagination optimization is observationally equivalent to the
unoptimized path and partitions the catalog: on every catalog whose work
ids are distinct (the primary-key invariant) and every page size of at
least 1, every valid page fetched with the total count supplied equals
the same page fetched without it, and concatenating all pages fetched
with the count supplied yields every stored work id exactly once, in
strictly descending id order. -/
theorem C2_pagination (s : DBState) (k : Int) (hk : 1 ≤ k)
    (hnd : (s.doujinshi.map DoujinshiRow.id).Nodup) :
    (∀ p : Int, 1 ≤ p → p ≤ ceilDivInt (how_many_doujinshi s) k →
      get_doujinshi_in_page s k p (some (how_many_doujinshi s))
        = get_doujinshi_in_page s k p Option.none) ∧
    ((paginationConcat s k).map PartialDoujinshi.id).Perm
      (s.doujinshi.map DoujinshiRow.id) ∧
    ((paginationConcat s k).map PartialDoujinshi.id).Pairwise
      (fun a b => b < a) := by
  have hcomp : (PartialDoujinshi.id ∘ rowToPartial s) = DoujinshiRow.id := rfl
  refine ⟨fun p hp1 hpM => page_equiv s k p hk hnd hp1 hpM, ?_, ?_⟩
  · rw [paginationConcat_eq s k hk hnd, List.map_map, hcomp]
    exact (descRows_perm s).map _
  · rw [paginationConcat_eq s k hk hnd, List.map_map, hcomp]
    exact List.pairwise_map.mpr (descRows_strict s hnd)

/-- Witness for C2 on the three-work catalog with page size 2: both
conjuncts hold with every hypothesis checked concretely. -/
theorem C2_pagination_witness :
    (∀ p : Int, 1 ≤ p → p ≤ ceilDivInt (how_many_doujinshi sThree) 2 →
      get_doujinshi_in_page sThree 2 p (some (how_many_doujinshi sThree))
        = get_doujinshi_in_page sThree 2 p Option.none) ∧
    ((paginationConcat sThree 2).map PartialDoujinshi.id).Perm
      (sThree.doujinshi.map DoujinshiRow.id) ∧
    ((paginationConcat sThree 2).map PartialDoujinshi.id).Pairwise
      (fun a b => b < a) :=
  C2_pagination sThree 2 (by decide) (by decide)


/-- Witness for C10 at the name key: a raw name normalizes once and is a
fixed point of a second validation, with both conjuncts of the amended
statement discharged. -/
theorem C10_normalizer_idempotent_witness :
    validate_and_normalize_string (str "name") (.str (str "  New  String "))
      = some (str "new string") ∧
    ((str "name" ≠ str "path" →
      validate_and_normalize_string (str "name") (.str (str "new string"))
        = some (str "new string")) ∧
     (collapseWs (str "new string") = str "new string" →
      validate_and_normalize_string (str "name") (.str (str "new string"))
        = some (str "new string"))) :=
  ⟨by decide, C10_normalizer_idempotent (str "name") (str "  New  String ")
    (str "new string") (by decide)⟩

/-- Counterexample to C10 as stated: the path normalizer is not
idempotent, because the POSIX step keeps a space left dangling by a
dropped trailing slash, and the second application strips it. -/
theorem C10_normalizer_idempotent_counterexample :
    validate_and_normalize_string (str "path") (.str (str "a /")) = some (str "a ")
    ∧ validate_and_normalize_string (str "path") (.str (str "a ")) = some (str "a")
    ∧ str "a" ≠ str "a " :=
  ⟨by decide, by decide, by decide⟩

end NClone
